import Mathlib

/-!
Verification development for the UBI attach/scan core
(drivers/mtd/ubi/attach.c).

The C code is embedded shallowly: every function under scrutiny is
translated into a computable Lean definition that mirrors the control
flow of the source line by line.  Flash I/O (the collaborators listed in
section 6.2 of the design document) is modelled by a record of response
maps, so a scan is a deterministic function of the media contents.
Machine integers are modelled by Int (C int / long long) and Nat
(unsigned long long sequence numbers); none of the claims exercises
integer wrap-around.  The red-black trees used by the source keep their
search structure: rb insertion places a node at the leaf reached by the
comparison walk and recolouring only rebalances, which preserves both
the in-order sequence and the reachability of every key through the
same comparisons, so the trees are embedded as plain binary search
trees with exactly the comparison orientation of the C walks.

Compile-time configuration: the MediaTek SLC/TLC paths
(CONFIG_MTK_SLC_BUFFER_SUPPORT) are modelled as disabled, matching the
plain UBI semantics the design document describes; the low-page backup
option (CONFIG_MTD_UBI_LOWPAGE_BACKUP), which only selects the waiting
list instead of the erase list for power-cut victims, is carried as an
explicit Bool parameter named cfg.
-/

namespace UbiAttach

/-! ## Constants

Numeric constants from the UBI headers (ubi.h, ubi-media.h).  They are
fixed, well-known values of the on-flash format described in sections
6.1, 6.2 and 6.4 of the design document. -/

def UBI_IO_FF : Int := 1
def UBI_IO_FF_BITFLIPS : Int := 2
def UBI_IO_BAD_HDR : Int := 3
def UBI_IO_BAD_HDR_EBADMSG : Int := 4
def UBI_IO_BITFLIPS : Int := 5

def UBI_UNKNOWN : Int := -1
def UBI_MAX_VOLUMES : Int := 128
def UBI_LAYOUT_VOLUME_ID : Int := 0x7fffefff
def UBI_MAX_ERASECOUNTER : Int := 0x7FFFFFFF
def UBI_VERSION : Int := 1

def UBI_COMPAT_DELETE : Int := 1
def UBI_COMPAT_RO : Int := 2
def UBI_COMPAT_PRESERVE : Int := 4
def UBI_COMPAT_REJECT : Int := 5

def UBI_VID_DYNAMIC : Int := 1
def UBI_VID_STATIC : Int := 2
def UBI_DYNAMIC_VOLUME : Int := 3
def UBI_STATIC_VOLUME : Int := 4

def EINVAL : Int := 22
def EioErr : Int := 5
def EBADMSG : Int := 74

def UBI_CRC32_INIT : Nat := 0xFFFFFFFF

/-- Modelled from the spec: the kernel mtd_is_eccerr predicate (an ECC
data-integrity error is reported as -EBADMSG by the I/O collaborator;
section 4.4 of the design document calls these integrity errors). -/
def mtd_is_eccerr (e : Int) : Bool := e == -EBADMSG

/-! ## CRC-32 -/

/-- Modelled from the spec: one bit step of the little-endian CRC-32
used by the kernel crc32 routine (polynomial 0xEDB88320). -/
def crc32_step (crc : Nat) : Nat :=
  if crc % 2 == 1 then (crc / 2) ^^^ 0xEDB88320 else crc / 2

/-- Modelled from the spec: CRC-32 absorption of one byte. -/
def crc32_byte (crc b : Nat) : Nat :=
  crc32_step^[8] (crc ^^^ (b % 256))

/-- Modelled from the spec: the kernel crc32(seed, buf, len) routine,
seed 0xFFFFFFFF in every UBI call (section 6.1 of the design
document).  The length argument is the length of the byte list. -/
def crc32 (seed : Nat) (buf : List Nat) : Nat :=
  buf.foldl crc32_byte seed

/-! ## On-flash headers and in-memory records -/

/-- Fields of struct ubi_ec_hdr that attach.c reads (after byte-order
conversion). -/
structure EcHdr where
  version : Int
  ec : Int
  image_seq : Int
deriving Repr, DecidableEq

/-- Fields of struct ubi_vid_hdr that attach.c reads (after byte-order
conversion). -/
structure VidHdr where
  vol_type : Int
  copy_flag : Bool
  compat : Int
  vol_id : Int
  lnum : Int
  data_size : Int
  used_ebs : Int
  data_pad : Int
  data_crc : Nat
  sqnum : Nat
deriving Repr, DecidableEq

/-- struct ubi_ainf_peb.  Fields the C code leaves uninitialised on
some paths (kmem_cache_alloc does not zero) are given fixed values by
the constructors below; no claim depends on them. -/
structure Aeb where
  pnum : Int
  vol_id : Int
  lnum : Int
  ec : Int
  sqnum : Nat
  scrub : Bool
  copy_flag : Bool
deriving Repr, DecidableEq

/-- Plain binary search tree standing in for the kernel rb-tree (see
the header comment: rebalancing preserves the in-order sequence). -/
inductive Tree (α : Type) where
  | nil : Tree α
  | node : Tree α → α → Tree α → Tree α
deriving Repr, DecidableEq

/-- In-order traversal: the visit sequence of rb_first / rb_next, used
by the ubi_rb_for_each_entry iteration macro. -/
def Tree.inorder : Tree α → List α
  | .nil => []
  | .node l x r => l.inorder ++ x :: r.inorder

/-- struct ubi_ainf_volume. -/
structure Av where
  vol_id : Int
  highest_lnum : Int
  leb_count : Int
  used_ebs : Int
  data_pad : Int
  compat : Int
  vol_type : Int
  last_data_size : Int
  root : Tree Aeb
deriving Repr, DecidableEq

/-- The PEB lists of struct ubi_attach_info that add_to_list serves. -/
inductive WhichList where
  | free | erase | alien | waiting
deriving Repr, DecidableEq

/-- struct ubi_attach_info. -/
structure AttachInfo where
  volumes : Tree Av
  free : List Aeb
  erase : List Aeb
  corr : List Aeb
  alien : List Aeb
  waiting : List Aeb
  bad_peb_count : Int
  alien_peb_count : Int
  corr_peb_count : Int
  empty_peb_count : Int
  maybe_bad_peb_count : Int
  vols_found : Int
  highest_vol_id : Int
  ec_sum : Int
  ec_count : Int
  min_ec : Int
  max_ec : Int
  mean_ec : Int
  max_sqnum : Nat
  is_empty : Bool
deriving Repr, DecidableEq

/-- The zero-initialised attach info produced by alloc_ai (kzalloc plus
empty list heads and an empty volume tree). -/
def emptyAi : AttachInfo :=
  { volumes := .nil, free := [], erase := [], corr := [], alien := [], waiting := []
  , bad_peb_count := 0, alien_peb_count := 0, corr_peb_count := 0
  , empty_peb_count := 0, maybe_bad_peb_count := 0, vols_found := 0
  , highest_vol_id := 0, ec_sum := 0, ec_count := 0, min_ec := 0, max_ec := 0
  , mean_ec := 0, max_sqnum := 0, is_empty := false }

/-- The fields of struct ubi_device that attach.c reads or writes. -/
structure UbiDev where
  peb_count : Nat
  image_seq : Int
  ro_mode : Bool
deriving Repr, DecidableEq

/-- Deterministic model of the flash I/O collaborators (section 6.2 of
the design document): for each physical eraseblock number, the result
code and contents delivered by is_bad / read_ec_hdr / read_vid_hdr and
the data-area read.  Result codes are 0, one of the UBI_IO codes, or a
negative errno. -/
structure Flash where
  is_bad : Int → Int
  ec_res : Int → Int
  ec_hdr : Int → EcHdr
  vid_res : Int → Int
  vid_hdr : Int → VidHdr
  data_res : Int → Int
  data : Int → List Nat

/-! ## ubi_compare_lebs -/

/-- The data-read-and-CRC tail of ubi_compare_lebs (from the label
after the copy-flag dispatch to the final return).  Returns the C
return value paired with the number of data-area reads performed. -/
def compare_data (fl : Flash) (second_is_newer : Bool) (bitflips : Bool)
    (vid : VidHdr) (pnum : Int) : Int × Nat :=
  let len := vid.data_size.toNat
  let err := fl.data_res pnum
  if err ≠ 0 ∧ err ≠ UBI_IO_BITFLIPS ∧ ¬ mtd_is_eccerr err then
    (err, 1)
  else
    let crc := crc32 UBI_CRC32_INIT ((fl.data pnum).take len)
    if crc ≠ vid.data_crc then
      ((if second_is_newer then 0 else 1) + 4, 1)
    else
      let bf := bitflips ∨ err ≠ 0
      ((if second_is_newer then 1 else 0) + (if bf then 2 else 0), 1)

/-- ubi_compare_lebs (attach.c lines 343..462).  First component is the
C return value: negative on failure, otherwise the bit packing
second_is_newer + 2 * bitflips + 4 * corrupted.  Second component
counts the ubi_io_read_data calls that were issued. -/
def ubi_compare_lebs (fl : Flash) (aeb : Aeb) (pnum : Int) (vid_hdr : VidHdr) :
    Int × Nat :=
  if vid_hdr.sqnum = aeb.sqnum then
    (-EINVAL, 0)
  else if vid_hdr.sqnum > aeb.sqnum then
    if ¬ vid_hdr.copy_flag then (1, 0)
    else compare_data fl true false vid_hdr pnum
  else
    if ¬ aeb.copy_flag then (0, 0)
    else
      let verr := fl.vid_res aeb.pnum
      if verr ≠ 0 ∧ verr ≠ UBI_IO_BITFLIPS then
        (if verr > 0 then -EioErr else verr, 0)
      else
        compare_data fl false (verr == UBI_IO_BITFLIPS) (fl.vid_hdr aeb.pnum) aeb.pnum

/-! ## List and volume-store operations -/

/-- add_to_list (attach.c lines 133..168).  Allocates an ainf_peb
record for the PEB and puts it on the head (to_head true, list_add) or
tail (list_add_tail) of the chosen list; incrementing alien_peb_count
when the destination is the alien list.  The sqnum, scrub and
copy_flag fields are left unset by the C allocation; the model fixes
them at 0 and false. -/
def add_to_list (ai : AttachInfo) (pnum vol_id lnum ec : Int) (to_head : Bool)
    (w : WhichList) : AttachInfo :=
  let aeb : Aeb := { pnum := pnum, vol_id := vol_id, lnum := lnum, ec := ec
                   , sqnum := 0, scrub := false, copy_flag := false }
  match w with
  | .free =>
    { ai with free := if to_head then aeb :: ai.free else ai.free ++ [aeb] }
  | .erase =>
    { ai with erase := if to_head then aeb :: ai.erase else ai.erase ++ [aeb] }
  | .alien =>
    { ai with alien_peb_count := ai.alien_peb_count + 1
            , alien := if to_head then aeb :: ai.alien else ai.alien ++ [aeb] }
  | .waiting =>
    { ai with waiting := if to_head then aeb :: ai.waiting else ai.waiting ++ [aeb] }

/-- add_corrupted (attach.c lines 181..196): bump corr_peb_count and
put a record carrying pnum and ec at the head of the corr list.  The
vol_id, lnum, sqnum, scrub and copy_flag fields are left unset by the
C code; the model fixes them. -/
def add_corrupted (ai : AttachInfo) (pnum ec : Int) : AttachInfo :=
  let aeb : Aeb := { pnum := pnum, vol_id := 0, lnum := 0, ec := ec
                   , sqnum := 0, scrub := false, copy_flag := false }
  { ai with corr_peb_count := ai.corr_peb_count + 1, corr := aeb :: ai.corr }

/-- validate_vid_hdr (attach.c lines 212..262): consistency of a VID
header against the volume record; 0 when consistent, -EINVAL when
not. -/
def validate_vid_hdr (vid : VidHdr) (av : Av) : Int :=
  if av.leb_count ≠ 0 then
    if vid.vol_id ≠ av.vol_id then -EINVAL
    else if vid.vol_type ≠ (if av.vol_type = UBI_STATIC_VOLUME
                            then UBI_VID_STATIC else UBI_VID_DYNAMIC) then -EINVAL
    else if vid.used_ebs ≠ av.used_ebs then -EINVAL
    else if vid.data_pad ≠ av.data_pad then -EINVAL
    else 0
  else 0

/-- The search walk of add_volume and ubi_find_av over the volume
rb-tree.  Note the orientation of the C comparison: a strictly larger
vol_id walks to the LEFT child. -/
def avFind : Tree Av → Int → Option Av
  | .nil, _ => none
  | .node l a r, vol_id =>
    if vol_id = a.vol_id then some a
    else if vol_id > a.vol_id then avFind l vol_id
    else avFind r vol_id

/-- Leaf insertion along the same walk (rb_link_node); the key is
known to be absent when this is used. -/
def avInsert : Tree Av → Av → Tree Av
  | .nil, x => .node .nil x .nil
  | .node l a r, x =>
    if x.vol_id > a.vol_id then .node (avInsert l x) a r
    else .node l a (avInsert r x)

/-- In-place update of the tree node bearing the given vol_id (the C
code mutates the volume record through the pointer returned by the
walk). -/
def avReplace : Tree Av → Int → Av → Tree Av
  | .nil, _, _ => .nil
  | .node l a r, vol_id, x =>
    if vol_id = a.vol_id then .node l x r
    else if vol_id > a.vol_id then .node (avReplace l vol_id x) a r
    else .node l a (avReplace r vol_id x)

/-- add_volume (attach.c lines 277..321).  Returns the updated attach
info together with the volume record the caller will work on: the
existing record when the vol_id is already present, otherwise a fresh
record initialised from the VID header and inserted into the tree. -/
def add_volume (ai : AttachInfo) (vol_id : Int) (vid_hdr : VidHdr) :
    AttachInfo × Av :=
  match avFind ai.volumes vol_id with
  | some av => (ai, av)
  | none =>
    let av : Av := { vol_id := vol_id, highest_lnum := 0, leb_count := 0
                   , used_ebs := vid_hdr.used_ebs, data_pad := vid_hdr.data_pad
                   , compat := vid_hdr.compat
                   , vol_type := if vid_hdr.vol_type = UBI_VID_DYNAMIC
                                 then UBI_DYNAMIC_VOLUME else UBI_STATIC_VOLUME
                   , last_data_size := 0, root := .nil }
    ({ ai with volumes := avInsert ai.volumes av
             , vols_found := ai.vols_found + 1
             , highest_vol_id := if vol_id > ai.highest_vol_id then vol_id
                                 else ai.highest_vol_id }, av)

/-- ubi_find_av (attach.c lines 640..659). -/
def ubi_find_av (ai : AttachInfo) (vol_id : Int) : Option Av :=
  avFind ai.volumes vol_id

/-- The search walk of ubi_add_to_av over a per-volume used tree
(keyed by lnum, smaller lnum to the left). -/
def lebFind : Tree Aeb → Int → Option Aeb
  | .nil, _ => none
  | .node l a r, lnum =>
    if lnum = a.lnum then some a
    else if lnum < a.lnum then lebFind l lnum
    else lebFind r lnum

/-- Leaf insertion along the same walk; the key is known absent when
this is used. -/
def lebInsert : Tree Aeb → Aeb → Tree Aeb
  | .nil, x => .node .nil x .nil
  | .node l a r, x =>
    if x.lnum < a.lnum then .node (lebInsert l x) a r
    else .node l a (lebInsert r x)

/-- In-place rewrite of the node bearing the given lnum (the C code
rewrites the fields of the existing tree node, preserving its
position). -/
def lebReplace : Tree Aeb → Int → Aeb → Tree Aeb
  | .nil, _, _ => .nil
  | .node l a r, lnum, x =>
    if lnum = a.lnum then .node l x r
    else if lnum < a.lnum then .node (lebReplace l lnum x) a r
    else .node l a (lebReplace r lnum x)

/-- ubi_add_to_av (attach.c lines 480..630): admit a used PEB to the
used tree of its volume, arbitrating against an existing holder of the
same LEB via ubi_compare_lebs. -/
def ubi_add_to_av (fl : Flash) (ai0 : AttachInfo) (pnum ec : Int)
    (vid : VidHdr) (bitflips : Bool) : Except Int AttachInfo :=
  let vol_id := vid.vol_id
  let lnum := vid.lnum
  let sq := vid.sqnum
  let avp := add_volume ai0 vol_id vid
  let av := avp.2
  let ai := if avp.1.max_sqnum < sq then { avp.1 with max_sqnum := sq } else avp.1
  match lebFind av.root lnum with
  | some aeb =>
    if aeb.sqnum = sq ∧ sq ≠ 0 then .error (-EINVAL)
    else
      let cmp_res := (ubi_compare_lebs fl aeb pnum vid).1
      if cmp_res < 0 then .error cmp_res
      else if cmp_res.toNat.testBit 0 then
        if validate_vid_hdr vid av ≠ 0 then .error (-EINVAL)
        else
          let ai2 := add_to_list ai aeb.pnum aeb.vol_id aeb.lnum aeb.ec
                       (cmp_res.toNat.testBit 2) .erase
          let aeb2 : Aeb := { pnum := pnum, vol_id := vol_id, lnum := lnum
                            , ec := ec, sqnum := sq
                            , scrub := cmp_res.toNat.testBit 1 ∨ bitflips
                            , copy_flag := vid.copy_flag }
          let av2 := { av with root := lebReplace av.root lnum aeb2
                             , last_data_size := if av.highest_lnum = lnum
                                 then vid.data_size else av.last_data_size }
          .ok { ai2 with volumes := avReplace ai2.volumes vol_id av2 }
      else
        .ok (add_to_list ai pnum vol_id lnum ec (cmp_res.toNat.testBit 2) .erase)
  | none =>
    if validate_vid_hdr vid av ≠ 0 then .error (-EINVAL)
    else
      let aeb2 : Aeb := { pnum := pnum, vol_id := vol_id, lnum := lnum
                        , ec := ec, sqnum := sq, scrub := bitflips
                        , copy_flag := vid.copy_flag }
      let av2 :=
        if av.highest_lnum ≤ lnum then
          { av with highest_lnum := lnum, last_data_size := vid.data_size
                  , leb_count := av.leb_count + 1
                  , root := lebInsert av.root aeb2 }
        else
          { av with leb_count := av.leb_count + 1
                  , root := lebInsert av.root aeb2 }
      .ok { ai with volumes := avReplace ai.volumes vol_id av2 }

/-! ## Corruption classifier and PEB classifier -/

/-- ubi_check_pattern: every byte of the buffer equals the pattern. -/
def ubi_check_pattern (buf : List Nat) (patt : Nat) : Bool :=
  buf.all (· == patt)

/-- check_corruption (attach.c lines 811..859), with the data-area
read outcome passed in: 0 declares power-cut corruption, 1 declares
unknown-cause corruption, negative propagates a read error. -/
def check_corruption (data_res : Int) (buf : List Nat) : Int :=
  if data_res = UBI_IO_BITFLIPS ∨ mtd_is_eccerr data_res then 0
  else if data_res ≠ 0 then data_res
  else if ubi_check_pattern buf 0xFF then 0
  else 1

/-- The EC-statistics epilogue of scan_peb (the adjust_mean_ec label,
attach.c lines 1143..1163): only a PEB whose EC header was read intact
contributes to the statistics. -/
def adjust_mean_ec (ai : AttachInfo) (ec_err ec : Int) : AttachInfo :=
  if ec_err = 0 then
    { ai with ec_sum := ai.ec_sum + ec, ec_count := ai.ec_count + 1
            , max_ec := if ec > ai.max_ec then ec else ai.max_ec
            , min_ec := if ec < ai.min_ec then ec else ai.min_ec }
  else ai

/-- The tail of scan_peb that hands a valid-VID PEB to the LEB arbiter
and then updates the EC statistics. -/
def scan_peb_addav (fl : Flash) (ubi : UbiDev) (ai : AttachInfo)
    (pnum ec ec_err : Int) (bitflips : Bool) : Except Int (UbiDev × AttachInfo) :=
  match ubi_add_to_av fl ai pnum ec (fl.vid_hdr pnum) bitflips with
  | .error e => .error e
  | .ok ai2 => .ok (ubi, adjust_mean_ec ai2 ec_err ec)

/-- The internal-volume compat dispatch of scan_peb (attach.c lines
1088..1130) followed by the arbiter hand-off. -/
def scan_peb_dispatch (fl : Flash) (ubi : UbiDev) (ai : AttachInfo)
    (pnum ec ec_err : Int) (bitflips : Bool) : Except Int (UbiDev × AttachInfo) :=
  let vid := fl.vid_hdr pnum
  let vol_id := vid.vol_id
  if vol_id > UBI_MAX_VOLUMES ∧ vol_id ≠ UBI_LAYOUT_VOLUME_ID then
    if vid.compat = UBI_COMPAT_DELETE then
      .ok (ubi, add_to_list ai pnum vol_id vid.lnum ec true .erase)
    else if vid.compat = UBI_COMPAT_RO then
      scan_peb_addav fl { ubi with ro_mode := true } ai pnum ec ec_err bitflips
    else if vid.compat = UBI_COMPAT_PRESERVE then
      .ok (ubi, add_to_list ai pnum vol_id vid.lnum ec false .alien)
    else if vid.compat = UBI_COMPAT_REJECT then
      .error (-EINVAL)
    else
      scan_peb_addav fl ubi ai pnum ec ec_err bitflips
  else
    scan_peb_addav fl ubi ai pnum ec ec_err bitflips

/-- The VID-header phase of scan_peb (attach.c lines 1011..1086).  The
cfg flag selects the waiting list (low-page backup compiled in) or the
erase list for power-cut victims. -/
def scan_peb_vid (cfg : Bool) (fl : Flash) (ubi : UbiDev) (ai : AttachInfo)
    (pnum ec ec_err : Int) (bitflips : Bool) : Except Int (UbiDev × AttachInfo) :=
  let verr := fl.vid_res pnum
  if verr < 0 then .error verr
  else if verr = 0 ∨ verr = UBI_IO_BITFLIPS then
    scan_peb_dispatch fl ubi ai pnum ec ec_err (bitflips || (verr == UBI_IO_BITFLIPS))
  else if verr = UBI_IO_BAD_HDR_EBADMSG ∨ verr = UBI_IO_BAD_HDR then
    let ai1 := if verr = UBI_IO_BAD_HDR_EBADMSG ∧ ec_err = UBI_IO_BAD_HDR_EBADMSG
               then { ai with maybe_bad_peb_count := ai.maybe_bad_peb_count + 1 }
               else ai
    let cres := if ec_err ≠ 0 then 0
                else check_corruption (fl.data_res pnum) (fl.data pnum)
    if cres < 0 then .error cres
    else if cres = 0 then
      .ok (ubi, adjust_mean_ec
            (add_to_list ai1 pnum UBI_UNKNOWN UBI_UNKNOWN ec true
              (if cfg then .waiting else .erase)) ec_err ec)
    else
      .ok (ubi, adjust_mean_ec (add_corrupted ai1 pnum ec) ec_err ec)
  else if verr = UBI_IO_FF_BITFLIPS then
    .ok (ubi, adjust_mean_ec
          (add_to_list ai pnum UBI_UNKNOWN UBI_UNKNOWN ec true .erase) ec_err ec)
  else if verr = UBI_IO_FF then
    if ec_err ≠ 0 ∨ bitflips then
      .ok (ubi, adjust_mean_ec
            (add_to_list ai pnum UBI_UNKNOWN UBI_UNKNOWN ec true .erase) ec_err ec)
    else
      .ok (ubi, adjust_mean_ec
            (add_to_list ai pnum UBI_UNKNOWN UBI_UNKNOWN ec false .free) ec_err ec)
  else .error (-EINVAL)

/-- scan_peb (attach.c lines 874..1166): classify one PEB.  Returns
the updated device state and attach info, or the fatal error the C
function would return. -/
def scan_peb (cfg : Bool) (fl : Flash) (ubi : UbiDev) (ai : AttachInfo)
    (pnum : Int) : Except Int (UbiDev × AttachInfo) :=
  let bad := fl.is_bad pnum
  if bad < 0 then .error bad
  else if bad ≠ 0 then
    .ok (ubi, { ai with bad_peb_count := ai.bad_peb_count + 1 })
  else
    let eres := fl.ec_res pnum
    if eres < 0 then .error eres
    else if eres = UBI_IO_FF then
      .ok (ubi, add_to_list { ai with empty_peb_count := ai.empty_peb_count + 1 }
                  pnum UBI_UNKNOWN UBI_UNKNOWN UBI_UNKNOWN false .erase)
    else if eres = UBI_IO_FF_BITFLIPS then
      .ok (ubi, add_to_list { ai with empty_peb_count := ai.empty_peb_count + 1 }
                  pnum UBI_UNKNOWN UBI_UNKNOWN UBI_UNKNOWN true .erase)
    else if eres = 0 ∨ eres = UBI_IO_BITFLIPS then
      let ech := fl.ec_hdr pnum
      if ech.version ≠ UBI_VERSION then .error (-EINVAL)
      else if ech.ec > UBI_MAX_ERASECOUNTER then .error (-EINVAL)
      else
        let ubi1 := if ubi.image_seq = 0 then { ubi with image_seq := ech.image_seq }
                    else ubi
        if ech.image_seq ≠ 0 ∧ ubi1.image_seq ≠ ech.image_seq then .error (-EINVAL)
        else scan_peb_vid cfg fl ubi1 ai pnum ech.ec 0 (eres == UBI_IO_BITFLIPS)
    else if eres = UBI_IO_BAD_HDR ∨ eres = UBI_IO_BAD_HDR_EBADMSG then
      scan_peb_vid cfg fl ubi ai pnum UBI_UNKNOWN eres true
    else .error (-EINVAL)

/-! ## Whole-device driver -/

/-- late_analysis (attach.c lines 1179..1239).  Division is C signed
division (truncation toward zero); the rand_seq argument stands for
the get_random_bytes value assigned to image_seq on empty media. -/
def late_analysis (rand_seq : Int) (ubi : UbiDev) (ai : AttachInfo) :
    Except Int (UbiDev × AttachInfo) :=
  let peb_count : Int := (ubi.peb_count : Int) - ai.bad_peb_count - ai.alien_peb_count
  let max_corr : Int := if peb_count.tdiv 20 = 0 then 8 else peb_count.tdiv 20
  if ai.corr_peb_count ≠ 0 ∧ ai.corr_peb_count ≥ max_corr then .error (-EINVAL)
  else if ai.empty_peb_count + ai.maybe_bad_peb_count = peb_count then
    if ai.maybe_bad_peb_count ≤ 2 then
      .ok ({ ubi with image_seq := rand_seq }, { ai with is_empty := true })
    else .error (-EINVAL)
  else .ok (ubi, ai)

/-- One mean-EC fill-in on a single record. -/
def fillAeb (m : Int) (a : Aeb) : Aeb :=
  if a.ec = UBI_UNKNOWN then { a with ec := m } else a

/-- Mean-EC fill-in over a used tree. -/
def fillTree (m : Int) : Tree Aeb → Tree Aeb
  | .nil => .nil
  | .node l x r => .node (fillTree m l) (fillAeb m x) (fillTree m r)

/-- Mean-EC fill-in over the volume tree. -/
def fillVols (m : Int) : Tree Av → Tree Av
  | .nil => .nil
  | .node l x r => .node (fillVols m l) { x with root := fillTree m x.root } (fillVols m r)

/-- The fill-in pass of scan_all (attach.c lines 1404..1445): every
record with unknown EC in the used trees and on the free, corr and
erase lists receives the mean erase counter. -/
def fill_unknown_ec (ai : AttachInfo) : AttachInfo :=
  let m := ai.mean_ec
  { ai with volumes := fillVols m ai.volumes
          , free := ai.free.map (fillAeb m)
          , corr := ai.corr.map (fillAeb m)
          , erase := ai.erase.map (fillAeb m) }

/-- self_check_ai (attach.c lines 1689..): with the general debug
checks disabled (the default configuration), the function returns 0
immediately. -/
def self_check_ai (_ubi : UbiDev) (_ai : AttachInfo) : Int := 0

/-- The classification loop of scan_all over a list of PEB numbers. -/
def scan_loop (cfg : Bool) (fl : Flash) :
    List Nat → UbiDev → AttachInfo → Except Int (UbiDev × AttachInfo)
  | [], ubi, ai => .ok (ubi, ai)
  | p :: ps, ubi, ai =>
    match scan_peb cfg fl ubi ai (p : Int) with
    | .error e => .error e
    | .ok ua => scan_loop cfg fl ps ua.1 ua.2

/-- scan_all (attach.c lines 1345..1461): classify every PEB in
[start, peb_count), compute the mean erase counter, run late analysis,
fill in unknown erase counters, run the self check. -/
def scan_all (cfg : Bool) (fl : Flash) (rand_seq : Int) (ubi : UbiDev)
    (ai : AttachInfo) (start : Nat) : Except Int (UbiDev × AttachInfo) :=
  match scan_loop cfg fl (List.range' start (ubi.peb_count - start)) ubi ai with
  | .error e => .error e
  | .ok ua =>
    let ai2 := if ua.2.ec_count ≠ 0
               then { ua.2 with mean_ec := ua.2.ec_sum.tdiv ua.2.ec_count }
               else ua.2
    match late_analysis rand_seq ua.1 ai2 with
    | .error e => .error e
    | .ok ua2 =>
      let ai4 := fill_unknown_ec ua2.2
      if self_check_ai ua2.1 ai4 ≠ 0 then .error (-EINVAL)
      else .ok (ua2.1, ai4)

/-! ## Generic helpers for stating results -/

/-- Whether an attach-level result is a success. -/
def exceptOk (r : Except Int (UbiDev × AttachInfo)) : Bool :=
  match r with
  | .ok _ => true
  | .error _ => false

/-- The attach info of a successful result (empty info on error; used
only to state facts about runs already shown successful). -/
def exceptAi (r : Except Int (UbiDev × AttachInfo)) : AttachInfo :=
  match r with
  | .ok ua => ua.2
  | .error _ => emptyAi

/-- Decidable equality of attach-level results, used by the concrete
evaluations below. -/
instance {e a : Type} [DecidableEq e] [DecidableEq a] : DecidableEq (Except e a) :=
  fun x y =>
    match x, y with
    | .ok v, .ok w => if h : v = w then .isTrue (by rw [h]) else .isFalse (by simp [h])
    | .error v, .error w => if h : v = w then .isTrue (by rw [h]) else .isFalse (by simp [h])
    | .ok _, .error _ => .isFalse (by simp)
    | .error _, .ok _ => .isFalse (by simp)

/-- The corruption-refusal threshold computed by late_analysis: the C
expression peb_count / 20 ?: 8, over the effective PEB count. -/
def lateMaxCorr (ubi : UbiDev) (ai : AttachInfo) : Int :=
  if ((ubi.peb_count : Int) - ai.bad_peb_count - ai.alien_peb_count).tdiv 20 = 0 then 8
  else ((ubi.peb_count : Int) - ai.bad_peb_count - ai.alien_peb_count).tdiv 20

/-! ## C3: the corruption-refusal threshold of late_analysis -/

/-- C3 counterexample: the claim says the refusal threshold is
max(peb_count'/20, 8).  On a device with 40 PEBs (none bad, none
alien) and 2 preserved-corrupt PEBs the code refuses attach with
-EINVAL, although 2 is below max(40/20, 8) = 8; the actual threshold
is the C elvis expression peb_count'/20 ?: 8, which here is 2. -/
theorem late_analysis_claim3_cex :
    late_analysis 0 { peb_count := 40, image_seq := 0, ro_mode := false }
        { emptyAi with corr_peb_count := 2 } = .error (-EINVAL) ∧
    ¬ ((2 : Int) ≥ max (((40 : Int) - 0 - 0).tdiv 20) 8) := by
  exact ⟨by decide, by decide⟩

/-- C3 (amended): with peb_count' = peb_count − bad_peb_count −
alien_peb_count, the refusal threshold is peb_count'/20 when that
quotient is nonzero and 8 otherwise (the C ?: operator), not
max(peb_count'/20, 8).  late_analysis returns -EINVAL whenever
corr_peb_count reaches that threshold, and below the threshold it
never refuses on corruption grounds: what remains is exactly the
blank-media analysis. -/
theorem late_analysis_corr_threshold (rand_seq : Int) (ubi : UbiDev)
    (ai : AttachInfo)
    (hba : ai.bad_peb_count + ai.alien_peb_count ≤ (ubi.peb_count : Int)) :
    (ai.corr_peb_count ≥ lateMaxCorr ubi ai →
       late_analysis rand_seq ubi ai = .error (-EINVAL)) ∧
    (ai.corr_peb_count < lateMaxCorr ubi ai →
       late_analysis rand_seq ubi ai =
         (if ai.empty_peb_count + ai.maybe_bad_peb_count =
              (ubi.peb_count : Int) - ai.bad_peb_count - ai.alien_peb_count then
            if ai.maybe_bad_peb_count ≤ 2 then
              Except.ok ({ ubi with image_seq := rand_seq }, { ai with is_empty := true })
            else Except.error (-EINVAL)
          else Except.ok (ubi, ai))) := by
  have hpc : 0 ≤ (ubi.peb_count : Int) - ai.bad_peb_count - ai.alien_peb_count := by
    omega
  have hdiv : 0 ≤ ((ubi.peb_count : Int) - ai.bad_peb_count - ai.alien_peb_count).tdiv 20 :=
    Int.tdiv_nonneg hpc (by norm_num)
  have hmc : 1 ≤ lateMaxCorr ubi ai := by
    unfold lateMaxCorr
    split
    · norm_num
    · omega
  constructor
  · intro h
    have h0 : ai.corr_peb_count ≠ 0 := by omega
    simp only [late_analysis, lateMaxCorr] at h ⊢
    rw [if_pos ⟨h0, h⟩]
  · intro h
    simp only [late_analysis, lateMaxCorr] at h ⊢
    rw [if_neg]
    rintro ⟨-, hc⟩
    omega

/-- Witness for the amended C3 theorem at a concrete device: 200 PEBs,
none bad or alien, 10 preserved-corrupt PEBs; the threshold is
200/20 = 10 and the code refuses. -/
theorem late_analysis_corr_threshold_witness :
    ({ emptyAi with corr_peb_count := 10 } : AttachInfo).bad_peb_count +
      ({ emptyAi with corr_peb_count := 10 } : AttachInfo).alien_peb_count ≤
      ((200 : Nat) : Int) ∧
    (({ emptyAi with corr_peb_count := 10 } : AttachInfo).corr_peb_count ≥
       lateMaxCorr { peb_count := 200, image_seq := 0, ro_mode := false }
         { emptyAi with corr_peb_count := 10 } →
     late_analysis 3 { peb_count := 200, image_seq := 0, ro_mode := false }
       { emptyAi with corr_peb_count := 10 } = .error (-EINVAL)) := by
  refine ⟨by decide, ?_⟩
  exact (late_analysis_corr_threshold 3
    { peb_count := 200, image_seq := 0, ro_mode := false }
    { emptyAi with corr_peb_count := 10 } (by decide)).1

/-! ## C9: find after add returns the inserted volume -/

/-- Inserting a key that the volume-tree walk does not find, then
searching for it, yields exactly the inserted record: insertion and
lookup follow the same comparisons. -/
theorem avFind_avInsert (t : Tree Av) (x : Av)
    (h : avFind t x.vol_id = none) :
    avFind (avInsert t x) x.vol_id = some x := by
  induction t with
  | nil => simp [avFind, avInsert]
  | node l a r ihl ihr =>
    unfold avFind at h
    by_cases h1 : x.vol_id = a.vol_id
    · simp [h1] at h
    · by_cases h2 : x.vol_id > a.vol_id
      · simp only [h1, if_false, h2, if_true] at h
        simp only [avInsert, h2, if_true]
        unfold avFind
        simp only [h1, if_false, h2, if_true]
        exact ihl h
      · simp only [h1, if_false, h2, if_false] at h
        simp only [avInsert, h2, if_false]
        unfold avFind
        simp only [h1, if_false, h2, if_false]
        exact ihr h

/-- C9: for every vol_id, after add_volume(ai, vol_id, pnum, vid_hdr)
returns a VolumeInfo, ubi_find_av(ai, vol_id) returns that same
record: the round trip between insertion and lookup holds both when
the volume already existed and when it was freshly inserted. -/
theorem add_volume_find_av_roundtrip (ai : AttachInfo) (vol_id : Int)
    (vid_hdr : VidHdr) :
    ubi_find_av (add_volume ai vol_id vid_hdr).1 vol_id =
      some (add_volume ai vol_id vid_hdr).2 := by
  unfold add_volume ubi_find_av
  cases h : avFind ai.volumes vol_id with
  | some av => simpa using h
  | none =>
    simp only
    exact avFind_avInsert ai.volumes _ h

/-! ## C1: the newer-copy protocol of ubi_compare_lebs -/

/-- C1: for distinct sequence numbers the copy with the higher sqnum
is provisionally newer.  If the provisional winner has copy_flag
clear, the function returns at once — result 1 (candidate newer) or 0
(holder newer), in both cases with the corrupted bit 2 clear and with
zero data-area reads.  If the winner has copy_flag set and the CRC-32
(seed 0xFFFFFFFF) of its data_size data bytes differs from the data_crc
of its VID header, the result is 4 (when the candidate had been the
provisional winner) or 5 (when the holder had been): in both cases the
second_is_newer bit 0 equals the negation of the provisional verdict,
the corrupted bit 2 is set and the bitflips bit 1 is clear, and exactly
one data-area read was issued. -/
theorem compare_lebs_protocol (fl : Flash) (aeb : Aeb) (pnum : Int)
    (vid_hdr : VidHdr) :
    (aeb.sqnum < vid_hdr.sqnum → vid_hdr.copy_flag = false →
       ubi_compare_lebs fl aeb pnum vid_hdr = (1, 0)) ∧
    (vid_hdr.sqnum < aeb.sqnum → aeb.copy_flag = false →
       ubi_compare_lebs fl aeb pnum vid_hdr = (0, 0)) ∧
    (aeb.sqnum < vid_hdr.sqnum → vid_hdr.copy_flag = true →
       (fl.data_res pnum = 0 ∨ fl.data_res pnum = UBI_IO_BITFLIPS ∨
        fl.data_res pnum = -EBADMSG) →
       crc32 UBI_CRC32_INIT ((fl.data pnum).take vid_hdr.data_size.toNat) ≠
         vid_hdr.data_crc →
       ubi_compare_lebs fl aeb pnum vid_hdr = (4, 1)) ∧
    (vid_hdr.sqnum < aeb.sqnum → aeb.copy_flag = true →
       (fl.vid_res aeb.pnum = 0 ∨ fl.vid_res aeb.pnum = UBI_IO_BITFLIPS) →
       (fl.data_res aeb.pnum = 0 ∨ fl.data_res aeb.pnum = UBI_IO_BITFLIPS ∨
        fl.data_res aeb.pnum = -EBADMSG) →
       crc32 UBI_CRC32_INIT
           ((fl.data aeb.pnum).take (fl.vid_hdr aeb.pnum).data_size.toNat) ≠
         (fl.vid_hdr aeb.pnum).data_crc →
       ubi_compare_lebs fl aeb pnum vid_hdr = (5, 1)) := by
  refine ⟨?_, ?_, ?_, ?_⟩
  · intro hlt hcf
    have hne : ¬ vid_hdr.sqnum = aeb.sqnum := by omega
    simp [ubi_compare_lebs, hne, hlt, hcf]
  · intro hlt hcf
    have hne : ¬ vid_hdr.sqnum = aeb.sqnum := by omega
    have hgt : ¬ vid_hdr.sqnum > aeb.sqnum := by omega
    simp [ubi_compare_lebs, hne, hgt, hcf]
  · intro hlt hcf hdata hcrc
    have hne : ¬ vid_hdr.sqnum = aeb.sqnum := by omega
    rcases hdata with h | h | h <;>
      simp [ubi_compare_lebs, hne, hlt, hcf, compare_data, h, hcrc, mtd_is_eccerr,
        UBI_IO_BITFLIPS, EBADMSG]
  · intro hlt hcf hvid hdata hcrc
    have hne : ¬ vid_hdr.sqnum = aeb.sqnum := by omega
    have hgt : ¬ vid_hdr.sqnum > aeb.sqnum := by omega
    rcases hvid with hv | hv <;> rcases hdata with h | h | h <;>
      simp [ubi_compare_lebs, hne, hgt, hcf, compare_data, hv, h, hcrc, mtd_is_eccerr,
        UBI_IO_BITFLIPS, EBADMSG]

/-- A concrete holder record used by the ubi_compare_lebs witnesses:
PEB 9 holding vol 0 LEB 0 at sqnum 7, flagged as a wear-leveling
copy. -/
def aebW : Aeb :=
  { pnum := 9, vol_id := 0, lnum := 0, ec := 10, sqnum := 7
  , scrub := false, copy_flag := true }

/-- A concrete candidate VID header with sqnum 8 above the holder,
copy_flag set, an empty data area and a data_crc that cannot match. -/
def vidW : VidHdr :=
  { vol_type := 1, copy_flag := true, compat := 0, vol_id := 0, lnum := 0
  , data_size := 0, used_ebs := 0, data_pad := 0, data_crc := 0, sqnum := 8 }

/-- Flash responses for the ubi_compare_lebs witnesses: every read
succeeds, every data area is empty (so the CRC over zero bytes is the
seed 0xFFFFFFFF, which differs from the stored data_crc 0). -/
def flW : Flash :=
  { is_bad := fun _ => 0, ec_res := fun _ => 0
  , ec_hdr := fun _ => { version := 1, ec := 10, image_seq := 0 }
  , vid_res := fun _ => 0, vid_hdr := fun _ => vidW
  , data_res := fun _ => 0, data := fun _ => [] }

/-- Witness for the C1 theorem: with holder sqnum 7 and candidate
sqnum 8, copy_flag set and a mismatching CRC, ubi_compare_lebs returns
4 after exactly one data read. -/
theorem compare_lebs_protocol_witness :
    aebW.sqnum < vidW.sqnum ∧ vidW.copy_flag = true ∧
    (flW.data_res 3 = 0 ∨ flW.data_res 3 = UBI_IO_BITFLIPS ∨
     flW.data_res 3 = -EBADMSG) ∧
    crc32 UBI_CRC32_INIT ((flW.data 3).take vidW.data_size.toNat) ≠
      vidW.data_crc ∧
    ubi_compare_lebs flW aebW 3 vidW = (4, 1) := by
  refine ⟨by decide, by decide, Or.inl (by decide), by decide, ?_⟩
  exact (compare_lebs_protocol flW aebW 3 vidW).2.2.1 (by decide) (by decide)
    (Or.inl (by decide)) (by decide)

/-! ## C2: duplicate sequence numbers on the same LEB -/

/-- Reduction of add_volume when the volume already exists. -/
theorem add_volume_found (ai : AttachInfo) (vol_id : Int) (vid_hdr : VidHdr)
    (av : Av) (h : avFind ai.volumes vol_id = some av) :
    add_volume ai vol_id vid_hdr = (ai, av) := by
  unfold add_volume
  rw [h]

/-- C2: when a second PEB claims a (vol_id, lnum) already held and
both copies carry the same sequence number, ubi_add_to_av fails with
-EINVAL (aborting the attach): directly when the number is nonzero,
and through ubi_compare_lebs returning -EINVAL on equal sequence
numbers when both are zero.  A zero-sqnum PEB that meets no conflict
is admitted: the refusal happens only when the conflict arises. -/
theorem add_to_av_duplicate_sqnum (fl : Flash) (ai : AttachInfo) (pnum ec : Int)
    (vid : VidHdr) (bf : Bool) (av : Av) (aeb : Aeb)
    (hav : avFind ai.volumes vid.vol_id = some av)
    (haeb : lebFind av.root vid.lnum = some aeb)
    (hdup : aeb.sqnum = vid.sqnum) :
    (vid.sqnum ≠ 0 → ubi_add_to_av fl ai pnum ec vid bf = .error (-EINVAL)) ∧
    (vid.sqnum = 0 →
       ubi_add_to_av fl ai pnum ec vid bf = .error (-EINVAL) ∧
       (ubi_compare_lebs fl aeb pnum vid).1 = -EINVAL) ∧
    (∀ vid2 : VidHdr, vid2.sqnum = 0 →
       lebFind (add_volume ai vid2.vol_id vid2).2.root vid2.lnum = none →
       validate_vid_hdr vid2 (add_volume ai vid2.vol_id vid2).2 = 0 →
       ∃ ai2, ubi_add_to_av fl ai pnum ec vid2 bf = .ok ai2) := by
  have hAV := add_volume_found ai vid.vol_id vid av hav
  have hcmp : ubi_compare_lebs fl aeb pnum vid = (-EINVAL, 0) := by
    unfold ubi_compare_lebs
    rw [if_pos hdup.symm]
  refine ⟨?_, ?_, ?_⟩
  · intro hnz
    simp only [ubi_add_to_av, hAV, haeb]
    rw [if_pos ⟨hdup, hnz⟩]
  · intro hz
    refine ⟨?_, by rw [hcmp]⟩
    simp only [ubi_add_to_av, hAV, haeb]
    rw [if_neg (by simp [hz]), hcmp]
    norm_num [EINVAL]
  · intro vid2 h0 hnone hval
    simp only [ubi_add_to_av, hnone]
    rw [if_neg (by simp [hval])]
    exact ⟨_, rfl⟩

/-- The volume record used by the C2 witness: volume 0 holding one
LEB. -/
def aebZ : Aeb :=
  { pnum := 2, vol_id := 0, lnum := 0, ec := 5, sqnum := 0
  , scrub := false, copy_flag := false }

/-- A volume record for the C2 witness whose used tree holds aebZ at
lnum 0. -/
def avZ : Av :=
  { vol_id := 0, highest_lnum := 0, leb_count := 1, used_ebs := 0
  , data_pad := 0, compat := 0, vol_type := UBI_DYNAMIC_VOLUME
  , last_data_size := 0, root := .node .nil aebZ .nil }

/-- Attach info for the C2 witness: a single volume 0. -/
def aiZ : AttachInfo :=
  { emptyAi with volumes := .node .nil avZ .nil, vols_found := 1 }

/-- A second zero-sqnum VID header claiming the same (vol 0, LEB 0). -/
def vidZ : VidHdr :=
  { vol_type := 1, copy_flag := false, compat := 0, vol_id := 0, lnum := 0
  , data_size := 0, used_ebs := 0, data_pad := 0, data_crc := 0, sqnum := 0 }

/-- Witness for the C2 theorem: both copies of (vol 0, LEB 0) carry
sqnum 0; ubi_add_to_av refuses with -EINVAL through ubi_compare_lebs
refusing the equal sequence numbers. -/
theorem add_to_av_duplicate_sqnum_witness :
    avFind aiZ.volumes vidZ.vol_id = some avZ ∧
    lebFind avZ.root vidZ.lnum = some aebZ ∧
    aebZ.sqnum = vidZ.sqnum ∧
    (ubi_add_to_av flW aiZ 3 7 vidZ false = .error (-EINVAL) ∧
     (ubi_compare_lebs flW aebZ 3 vidZ).1 = -EINVAL) := by
  refine ⟨by decide, by decide, by decide, ?_⟩
  exact (add_to_av_duplicate_sqnum flW aiZ 3 7 vidZ false avZ aebZ
    (by decide) (by decide) (by decide)).2.1 (by decide)

/-! ## Reduction of scan_peb through an intact EC header -/

/-- When the PEB is not bad and its EC header reads back intact
(cleanly or with bit-flips), with a valid format version, an erase
counter within range and a consistent image sequence number, scan_peb
proceeds to the VID-header phase with ec taken from the header,
ec_err 0 and the bitflips flag reflecting the EC read. -/
theorem scan_peb_ec_ok (cfg : Bool) (fl : Flash) (ubi : UbiDev)
    (ai : AttachInfo) (pnum : Int)
    (hbad : fl.is_bad pnum = 0)
    (hec : fl.ec_res pnum = 0 ∨ fl.ec_res pnum = UBI_IO_BITFLIPS)
    (hver : (fl.ec_hdr pnum).version = UBI_VERSION)
    (hmax : (fl.ec_hdr pnum).ec ≤ UBI_MAX_ERASECOUNTER)
    (hseq : (fl.ec_hdr pnum).image_seq = 0 ∨ ubi.image_seq = 0 ∨
            ubi.image_seq = (fl.ec_hdr pnum).image_seq) :
    scan_peb cfg fl ubi ai pnum =
      scan_peb_vid cfg fl
        (if ubi.image_seq = 0 then { ubi with image_seq := (fl.ec_hdr pnum).image_seq }
         else ubi)
        ai pnum (fl.ec_hdr pnum).ec 0 (fl.ec_res pnum == UBI_IO_BITFLIPS) := by
  have himg : ¬((fl.ec_hdr pnum).image_seq ≠ 0 ∧
      (if ubi.image_seq = 0 then { ubi with image_seq := (fl.ec_hdr pnum).image_seq }
       else ubi).image_seq ≠ (fl.ec_hdr pnum).image_seq) := by
    rcases hseq with h | h | h <;> by_cases h2 : ubi.image_seq = 0 <;>
      simp [h, h2] <;> intro h3 <;> simp_all
  rcases hec with h | h <;>
    simp_all [scan_peb, hbad, h, UBI_IO_FF, UBI_IO_FF_BITFLIPS, UBI_IO_BITFLIPS,
      UBI_IO_BAD_HDR, UBI_IO_BAD_HDR_EBADMSG, hver, not_lt.mpr hmax]

/-! ## C7: erased PEBs (EC header reads FF) -/

/-- C7 (amended): a PEB whose EC-header read returns FF has
empty_peb_count incremented and a PebInfo with unknown EC appended to
the TAIL of the erase list; when the read returns FF_BITFLIPS the
record is instead added to the HEAD of the erase list (to_head is 1 in
the C call).  Both paths return success immediately, before the VID
header is consulted: the result is the same for every flash whose
is_bad and ec_res answers agree, whatever its VID responses. -/
theorem scan_peb_empty_ec (cfg : Bool) (fl : Flash) (ubi : UbiDev)
    (ai : AttachInfo) (pnum : Int)
    (hbad : fl.is_bad pnum = 0) :
    (fl.ec_res pnum = UBI_IO_FF →
       scan_peb cfg fl ubi ai pnum =
         .ok (ubi, add_to_list { ai with empty_peb_count := ai.empty_peb_count + 1 }
                     pnum UBI_UNKNOWN UBI_UNKNOWN UBI_UNKNOWN false .erase) ∧
       (add_to_list { ai with empty_peb_count := ai.empty_peb_count + 1 }
          pnum UBI_UNKNOWN UBI_UNKNOWN UBI_UNKNOWN false .erase).erase =
         ai.erase ++ [{ pnum := pnum, vol_id := UBI_UNKNOWN, lnum := UBI_UNKNOWN
                      , ec := UBI_UNKNOWN, sqnum := 0, scrub := false
                      , copy_flag := false }]) ∧
    (fl.ec_res pnum = UBI_IO_FF_BITFLIPS →
       scan_peb cfg fl ubi ai pnum =
         .ok (ubi, add_to_list { ai with empty_peb_count := ai.empty_peb_count + 1 }
                     pnum UBI_UNKNOWN UBI_UNKNOWN UBI_UNKNOWN true .erase) ∧
       (add_to_list { ai with empty_peb_count := ai.empty_peb_count + 1 }
          pnum UBI_UNKNOWN UBI_UNKNOWN UBI_UNKNOWN true .erase).erase =
         { pnum := pnum, vol_id := UBI_UNKNOWN, lnum := UBI_UNKNOWN
         , ec := UBI_UNKNOWN, sqnum := 0, scrub := false
         , copy_flag := false } :: ai.erase) := by
  constructor
  · intro h
    refine ⟨?_, by simp [add_to_list]⟩
    simp [scan_peb, hbad, h, UBI_IO_FF]
  · intro h
    refine ⟨?_, by simp [add_to_list]⟩
    simp [scan_peb, hbad, h, UBI_IO_FF, UBI_IO_FF_BITFLIPS]

/-- A one-PEB device descriptor used by several concrete runs. -/
def ubiOne : UbiDev := { peb_count := 1, image_seq := 0, ro_mode := false }

/-- Flash whose every EC-header read answers FF_BITFLIPS. -/
def flFFB : Flash :=
  { flW with ec_res := fun _ => UBI_IO_FF_BITFLIPS }

/-- C7 counterexample: the claim says an FF_BITFLIPS PEB is appended
to the TAIL of the erase list.  Scanning PEB 1 (EC read FF_BITFLIPS)
with an erase list already holding one record puts the new record at
the HEAD: the resulting list is not the claimed tail append. -/
theorem scan_peb_claim7_cex :
    flFFB.ec_res 1 = UBI_IO_FF_BITFLIPS ∧
    (exceptAi (scan_peb false flFFB ubiOne { emptyAi with erase := [aebW] } 1)).erase =
      [{ pnum := 1, vol_id := UBI_UNKNOWN, lnum := UBI_UNKNOWN, ec := UBI_UNKNOWN
       , sqnum := 0, scrub := false, copy_flag := false }, aebW] ∧
    (exceptAi (scan_peb false flFFB ubiOne { emptyAi with erase := [aebW] } 1)).erase ≠
      ({ emptyAi with erase := [aebW] } : AttachInfo).erase ++
        [{ pnum := 1, vol_id := UBI_UNKNOWN, lnum := UBI_UNKNOWN, ec := UBI_UNKNOWN
         , sqnum := 0, scrub := false, copy_flag := false }] := by
  exact ⟨by decide, by decide, by decide⟩

/-- Witness for the amended C7 theorem: a concrete FF_BITFLIPS scan
lands the fresh unknown-EC record at the head of the erase list. -/
theorem scan_peb_empty_ec_witness :
    flFFB.is_bad 1 = 0 ∧ flFFB.ec_res 1 = UBI_IO_FF_BITFLIPS ∧
    (scan_peb false flFFB ubiOne { emptyAi with erase := [aebW] } 1 =
       .ok (ubiOne, add_to_list
             { ({ emptyAi with erase := [aebW] } : AttachInfo) with empty_peb_count := 1 }
             1 UBI_UNKNOWN UBI_UNKNOWN UBI_UNKNOWN true .erase) ∧
     (add_to_list { ({ emptyAi with erase := [aebW] } : AttachInfo) with empty_peb_count := 1 }
        1 UBI_UNKNOWN UBI_UNKNOWN UBI_UNKNOWN true .erase).erase =
       { pnum := 1, vol_id := UBI_UNKNOWN, lnum := UBI_UNKNOWN, ec := UBI_UNKNOWN
       , sqnum := 0, scrub := false, copy_flag := false } :: [aebW]) := by
  refine ⟨by decide, by decide, ?_⟩
  exact (scan_peb_empty_ec false flFFB ubiOne { emptyAi with erase := [aebW] } 1
    (by decide)).2 (by decide)

/-! ## C6: internal-volume compat dispatch -/

/-- When the VID header reads back intact (cleanly or with bit-flips),
the VID phase reduces to the vol_id dispatch. -/
theorem scan_peb_vid_ok (cfg : Bool) (fl : Flash) (ubi : UbiDev)
    (ai : AttachInfo) (pnum ec ec_err : Int) (bitflips : Bool)
    (hv : fl.vid_res pnum = 0 ∨ fl.vid_res pnum = UBI_IO_BITFLIPS) :
    scan_peb_vid cfg fl ubi ai pnum ec ec_err bitflips =
      scan_peb_dispatch fl ubi ai pnum ec ec_err
        (bitflips || (fl.vid_res pnum == UBI_IO_BITFLIPS)) := by
  rcases hv with h | h <;>
    simp [scan_peb_vid, h, UBI_IO_BITFLIPS, UBI_IO_BAD_HDR, UBI_IO_BAD_HDR_EBADMSG,
      UBI_IO_FF, UBI_IO_FF_BITFLIPS]

/-- C6 (amended): the internal-volume dispatch triggers for
vol_id STRICTLY GREATER than UBI_MAX_VOLUMES (not for vol_id equal to
it) and different from the layout volume id: DELETE puts the PEB at
the head of the erase list and returns success, RO sets the device
read-only and still hands the PEB to the LEB arbiter, PRESERVE appends
it to the tail of the alien list and returns success, REJECT is fatal
with -EINVAL.  Every vol_id less than or equal to UBI_MAX_VOLUMES, and
the layout volume id, bypasses the dispatch and goes to the LEB
arbiter. -/
theorem scan_peb_internal_volume_dispatch (cfg : Bool) (fl : Flash)
    (ubi : UbiDev) (ai : AttachInfo) (pnum : Int)
    (hbad : fl.is_bad pnum = 0)
    (hec : fl.ec_res pnum = 0 ∨ fl.ec_res pnum = UBI_IO_BITFLIPS)
    (hver : (fl.ec_hdr pnum).version = UBI_VERSION)
    (hmax : (fl.ec_hdr pnum).ec ≤ UBI_MAX_ERASECOUNTER)
    (hseq : (fl.ec_hdr pnum).image_seq = 0 ∨ ubi.image_seq = 0 ∨
            ubi.image_seq = (fl.ec_hdr pnum).image_seq)
    (hv : fl.vid_res pnum = 0 ∨ fl.vid_res pnum = UBI_IO_BITFLIPS) :
    ((fl.vid_hdr pnum).vol_id > UBI_MAX_VOLUMES ∧
       (fl.vid_hdr pnum).vol_id ≠ UBI_LAYOUT_VOLUME_ID →
       ((fl.vid_hdr pnum).compat = UBI_COMPAT_DELETE →
          scan_peb cfg fl ubi ai pnum =
            .ok ((if ubi.image_seq = 0
                  then { ubi with image_seq := (fl.ec_hdr pnum).image_seq } else ubi),
                 add_to_list ai pnum (fl.vid_hdr pnum).vol_id (fl.vid_hdr pnum).lnum
                   (fl.ec_hdr pnum).ec true .erase)) ∧
       ((fl.vid_hdr pnum).compat = UBI_COMPAT_RO →
          scan_peb cfg fl ubi ai pnum =
            scan_peb_addav fl
              { (if ubi.image_seq = 0
                 then { ubi with image_seq := (fl.ec_hdr pnum).image_seq } else ubi) with
                ro_mode := true }
              ai pnum (fl.ec_hdr pnum).ec 0
              ((fl.ec_res pnum == UBI_IO_BITFLIPS) || (fl.vid_res pnum == UBI_IO_BITFLIPS))) ∧
       ((fl.vid_hdr pnum).compat = UBI_COMPAT_PRESERVE →
          scan_peb cfg fl ubi ai pnum =
            .ok ((if ubi.image_seq = 0
                  then { ubi with image_seq := (fl.ec_hdr pnum).image_seq } else ubi),
                 add_to_list ai pnum (fl.vid_hdr pnum).vol_id (fl.vid_hdr pnum).lnum
                   (fl.ec_hdr pnum).ec false .alien)) ∧
       ((fl.vid_hdr pnum).compat = UBI_COMPAT_REJECT →
          scan_peb cfg fl ubi ai pnum = .error (-EINVAL))) ∧
    (¬((fl.vid_hdr pnum).vol_id > UBI_MAX_VOLUMES ∧
        (fl.vid_hdr pnum).vol_id ≠ UBI_LAYOUT_VOLUME_ID) →
       scan_peb cfg fl ubi ai pnum =
         scan_peb_addav fl
           (if ubi.image_seq = 0
            then { ubi with image_seq := (fl.ec_hdr pnum).image_seq } else ubi)
           ai pnum (fl.ec_hdr pnum).ec 0
           ((fl.ec_res pnum == UBI_IO_BITFLIPS) || (fl.vid_res pnum == UBI_IO_BITFLIPS))) := by
  rw [scan_peb_ec_ok cfg fl ubi ai pnum hbad hec hver hmax hseq,
    scan_peb_vid_ok cfg fl _ ai pnum _ 0 _ hv]
  constructor
  · intro hint
    refine ⟨?_, ?_, ?_, ?_⟩ <;> intro hc <;>
      simp [scan_peb_dispatch, hint, hc, UBI_COMPAT_DELETE, UBI_COMPAT_RO,
        UBI_COMPAT_PRESERVE, UBI_COMPAT_REJECT]
  · intro hint
    simp [scan_peb_dispatch, hint]

/-- Flash image whose single PEB claims vol_id 128 (exactly
UBI_MAX_VOLUMES) with compat PRESERVE behind valid headers. -/
def fl128 : Flash :=
  { is_bad := fun _ => 0, ec_res := fun _ => 0
  , ec_hdr := fun _ => { version := 1, ec := 7, image_seq := 0 }
  , vid_res := fun _ => 0
  , vid_hdr := fun _ => { vol_type := 1, copy_flag := false
                        , compat := UBI_COMPAT_PRESERVE, vol_id := 128, lnum := 0
                        , data_size := 0, used_ebs := 0, data_pad := 0
                        , data_crc := 0, sqnum := 4 }
  , data_res := fun _ => 0, data := fun _ => [] }

/-- C6 counterexample: the claim triggers the dispatch for
vol_id ≥ MAX_USER_VOLUMES, so a PEB with vol_id exactly 128 and compat
PRESERVE should land on the alien list.  The code tests vol_id > 128:
the PEB bypasses the dispatch, the alien list stays empty, and the PEB
is admitted to a volume through the LEB arbiter instead. -/
theorem scan_peb_claim6_cex :
    (fl128.vid_hdr 0).vol_id = UBI_MAX_VOLUMES ∧
    (fl128.vid_hdr 0).vol_id ≠ UBI_LAYOUT_VOLUME_ID ∧
    (fl128.vid_hdr 0).compat = UBI_COMPAT_PRESERVE ∧
    exceptOk (scan_peb false fl128 ubiOne emptyAi 0) = true ∧
    (exceptAi (scan_peb false fl128 ubiOne emptyAi 0)).alien = [] ∧
    (exceptAi (scan_peb false fl128 ubiOne emptyAi 0)).alien_peb_count = 0 ∧
    (ubi_find_av (exceptAi (scan_peb false fl128 ubiOne emptyAi 0)) 128).isSome = true := by
  exact ⟨by decide, by decide, by decide, by decide, by decide, by decide, by decide⟩

/-- Flash image whose single PEB belongs to a genuinely internal
volume (vol_id far above UBI_MAX_VOLUMES) with compat PRESERVE. -/
def flPres : Flash :=
  { fl128 with
    vid_hdr := fun _ => { vol_type := 1, copy_flag := false
                        , compat := UBI_COMPAT_PRESERVE, vol_id := 0x7ffff000
                        , lnum := 0, data_size := 0, used_ebs := 0, data_pad := 0
                        , data_crc := 0, sqnum := 4 } }

/-- Witness for the amended C6 theorem: a PRESERVE internal volume is
appended to the alien list. -/
theorem scan_peb_internal_volume_dispatch_witness :
    ((flPres.vid_hdr 0).vol_id > UBI_MAX_VOLUMES ∧
      (flPres.vid_hdr 0).vol_id ≠ UBI_LAYOUT_VOLUME_ID) ∧
    (flPres.vid_hdr 0).compat = UBI_COMPAT_PRESERVE ∧
    scan_peb false flPres ubiOne emptyAi 0 =
      .ok ((if ubiOne.image_seq = 0
            then { ubiOne with image_seq := (flPres.ec_hdr 0).image_seq } else ubiOne),
           add_to_list emptyAi 0 (flPres.vid_hdr 0).vol_id (flPres.vid_hdr 0).lnum
             (flPres.ec_hdr 0).ec false .alien) := by
  refine ⟨⟨by decide, by decide⟩, by decide, ?_⟩
  exact ((scan_peb_internal_volume_dispatch false flPres ubiOne emptyAi 0
    (by decide) (Or.inl (by decide)) (by decide) (by decide) (Or.inl (by decide))
    (Or.inl (by decide))).1 ⟨by decide, by decide⟩).2.2.1 (by decide)

/-! ## C5: corruption classification of VID-corrupt PEBs -/

/-- C5: for a PEB whose EC header read back intact but whose VID
header is corrupt (BAD_HDR or BAD_HDR_EBADMSG), and whose data-area
read succeeds, reports bit-flips or an ECC integrity error:
check_corruption yields the power-cut verdict (0) exactly when the
read reported bit-flips or an integrity error or the data area is all
0xFF, and then the PEB goes to the head of the waiting list (backup
configured in) or the erase list, leaving the corr list and
corr_peb_count untouched; in every other successful case the verdict
is 1 and the PEB is preserved through add_corrupted: corr_peb_count
grows by one and the erase and waiting lists are untouched. -/
theorem scan_peb_vid_corrupt (cfg : Bool) (fl : Flash) (ubi : UbiDev)
    (ai : AttachInfo) (pnum : Int)
    (hbad : fl.is_bad pnum = 0)
    (hec : fl.ec_res pnum = 0 ∨ fl.ec_res pnum = UBI_IO_BITFLIPS)
    (hver : (fl.ec_hdr pnum).version = UBI_VERSION)
    (hmax : (fl.ec_hdr pnum).ec ≤ UBI_MAX_ERASECOUNTER)
    (hseq : (fl.ec_hdr pnum).image_seq = 0 ∨ ubi.image_seq = 0 ∨
            ubi.image_seq = (fl.ec_hdr pnum).image_seq)
    (hv : fl.vid_res pnum = UBI_IO_BAD_HDR ∨ fl.vid_res pnum = UBI_IO_BAD_HDR_EBADMSG)
    (hd : fl.data_res pnum = 0 ∨ fl.data_res pnum = UBI_IO_BITFLIPS ∨
          fl.data_res pnum = -EBADMSG) :
    (fl.data_res pnum = UBI_IO_BITFLIPS ∨ fl.data_res pnum = -EBADMSG ∨
       ubi_check_pattern (fl.data pnum) 0xFF = true →
       check_corruption (fl.data_res pnum) (fl.data pnum) = 0 ∧
       scan_peb cfg fl ubi ai pnum =
         .ok ((if ubi.image_seq = 0
               then { ubi with image_seq := (fl.ec_hdr pnum).image_seq } else ubi),
              adjust_mean_ec
                (add_to_list ai pnum UBI_UNKNOWN UBI_UNKNOWN (fl.ec_hdr pnum).ec true
                  (if cfg then .waiting else .erase)) 0 (fl.ec_hdr pnum).ec) ∧
       (exceptAi (scan_peb cfg fl ubi ai pnum)).corr = ai.corr ∧
       (exceptAi (scan_peb cfg fl ubi ai pnum)).corr_peb_count = ai.corr_peb_count) ∧
    (fl.data_res pnum = 0 → ubi_check_pattern (fl.data pnum) 0xFF = false →
       check_corruption (fl.data_res pnum) (fl.data pnum) = 1 ∧
       scan_peb cfg fl ubi ai pnum =
         .ok ((if ubi.image_seq = 0
               then { ubi with image_seq := (fl.ec_hdr pnum).image_seq } else ubi),
              adjust_mean_ec (add_corrupted ai pnum (fl.ec_hdr pnum).ec) 0
                (fl.ec_hdr pnum).ec) ∧
       (exceptAi (scan_peb cfg fl ubi ai pnum)).corr_peb_count = ai.corr_peb_count + 1 ∧
       (exceptAi (scan_peb cfg fl ubi ai pnum)).erase = ai.erase ∧
       (exceptAi (scan_peb cfg fl ubi ai pnum)).waiting = ai.waiting) := by
  rw [scan_peb_ec_ok cfg fl ubi ai pnum hbad hec hver hmax hseq]
  constructor
  · intro hpc
    have hcc : check_corruption (fl.data_res pnum) (fl.data pnum) = 0 := by
      rcases hpc with h | h | h
      · simp [check_corruption, h, mtd_is_eccerr, UBI_IO_BITFLIPS, EBADMSG]
      · simp [check_corruption, h, mtd_is_eccerr, UBI_IO_BITFLIPS, EBADMSG]
      · rcases hd with h0 | h0 | h0 <;>
          simp [check_corruption, h, h0, mtd_is_eccerr, UBI_IO_BITFLIPS, EBADMSG]
    have hres : scan_peb_vid cfg fl
        (if ubi.image_seq = 0
         then { ubi with image_seq := (fl.ec_hdr pnum).image_seq } else ubi)
        ai pnum (fl.ec_hdr pnum).ec 0 (fl.ec_res pnum == UBI_IO_BITFLIPS) =
        .ok ((if ubi.image_seq = 0
              then { ubi with image_seq := (fl.ec_hdr pnum).image_seq } else ubi),
             adjust_mean_ec
               (add_to_list ai pnum UBI_UNKNOWN UBI_UNKNOWN (fl.ec_hdr pnum).ec true
                 (if cfg then .waiting else .erase)) 0 (fl.ec_hdr pnum).ec) := by
      rcases hv with h | h <;>
        simp [scan_peb_vid, h, hcc, UBI_IO_BITFLIPS, UBI_IO_BAD_HDR,
          UBI_IO_BAD_HDR_EBADMSG, UBI_IO_FF, UBI_IO_FF_BITFLIPS]
    refine ⟨hcc, hres, ?_, ?_⟩ <;>
      cases cfg <;>
        simp [hres, exceptAi, adjust_mean_ec, add_to_list]
  · intro h0 hnf
    have hcc : check_corruption (fl.data_res pnum) (fl.data pnum) = 1 := by
      simp [check_corruption, h0, hnf, mtd_is_eccerr, UBI_IO_BITFLIPS, EBADMSG]
    have hres : scan_peb_vid cfg fl
        (if ubi.image_seq = 0
         then { ubi with image_seq := (fl.ec_hdr pnum).image_seq } else ubi)
        ai pnum (fl.ec_hdr pnum).ec 0 (fl.ec_res pnum == UBI_IO_BITFLIPS) =
        .ok ((if ubi.image_seq = 0
              then { ubi with image_seq := (fl.ec_hdr pnum).image_seq } else ubi),
             adjust_mean_ec (add_corrupted ai pnum (fl.ec_hdr pnum).ec) 0
               (fl.ec_hdr pnum).ec) := by
      rcases hv with h | h <;>
        simp [scan_peb_vid, h, hcc, UBI_IO_BITFLIPS, UBI_IO_BAD_HDR,
          UBI_IO_BAD_HDR_EBADMSG, UBI_IO_FF, UBI_IO_FF_BITFLIPS]
    refine ⟨hcc, hres, ?_, ?_, ?_⟩ <;>
      simp [hres, exceptAi, adjust_mean_ec, add_corrupted]

/-- Flash with an intact EC header, a CRC-bad VID header, and a data
area holding the byte 0xAB: the unknown-corruption scenario. -/
def flCorr : Flash :=
  { is_bad := fun _ => 0, ec_res := fun _ => 0
  , ec_hdr := fun _ => { version := 1, ec := 7, image_seq := 0 }
  , vid_res := fun _ => UBI_IO_BAD_HDR
  , vid_hdr := fun _ => vidZ
  , data_res := fun _ => 0, data := fun _ => [0xAB] }

/-- Witness for the C5 theorem: the 0xAB data area is not all 0xFF, so
the PEB is preserved on the corr list and corr_peb_count becomes 1. -/
theorem scan_peb_vid_corrupt_witness :
    flCorr.vid_res 0 = UBI_IO_BAD_HDR ∧
    flCorr.data_res 0 = 0 ∧
    ubi_check_pattern (flCorr.data 0) 0xFF = false ∧
    (check_corruption (flCorr.data_res 0) (flCorr.data 0) = 1 ∧
     scan_peb false flCorr ubiOne emptyAi 0 =
       .ok ((if ubiOne.image_seq = 0
             then { ubiOne with image_seq := (flCorr.ec_hdr 0).image_seq } else ubiOne),
            adjust_mean_ec (add_corrupted emptyAi 0 (flCorr.ec_hdr 0).ec) 0
              (flCorr.ec_hdr 0).ec) ∧
     (exceptAi (scan_peb false flCorr ubiOne emptyAi 0)).corr_peb_count =
       emptyAi.corr_peb_count + 1 ∧
     (exceptAi (scan_peb false flCorr ubiOne emptyAi 0)).erase = emptyAi.erase ∧
     (exceptAi (scan_peb false flCorr ubiOne emptyAi 0)).waiting = emptyAi.waiting) := by
  refine ⟨by decide, by decide, by decide, ?_⟩
  exact (scan_peb_vid_corrupt false flCorr ubiOne emptyAi 0
    (by decide) (Or.inl (by decide)) (by decide) (by decide) (Or.inl (by decide))
    (Or.inl (by decide)) (Or.inl (by decide))).2 (by decide) (by decide)

/-! ## C8: iteration order of the volume tree and the used trees -/

/-- Search-tree shape of the volume tree, with the orientation of the
C comparisons in add_volume and ubi_find_av: every volume in a LEFT
subtree has a strictly LARGER vol_id than its root, every volume in a
right subtree a strictly smaller one. -/
def AvWf : Tree Av → Prop
  | .nil => True
  | .node l a r =>
    (∀ b ∈ l.inorder, a.vol_id < b.vol_id) ∧
    (∀ b ∈ r.inorder, b.vol_id < a.vol_id) ∧ AvWf l ∧ AvWf r

/-- Search-tree shape of a used tree: smaller lnum to the left, the
orientation of the walk in ubi_add_to_av. -/
def LebWf : Tree Aeb → Prop
  | .nil => True
  | .node l a r =>
    (∀ b ∈ l.inorder, b.lnum < a.lnum) ∧
    (∀ b ∈ r.inorder, a.lnum < b.lnum) ∧ LebWf l ∧ LebWf r

/-- Volume-tree insertion adds no element beyond the inserted one. -/
theorem avInsert_subset (t : Tree Av) (x b : Av)
    (h : b ∈ (avInsert t x).inorder) : b ∈ t.inorder ∨ b = x := by
  induction t with
  | nil =>
    simp only [avInsert, Tree.inorder, List.mem_append, List.mem_cons,
      List.not_mem_nil, false_or, or_false] at h
    exact Or.inr h
  | node l a r ihl ihr =>
    unfold avInsert at h
    split at h <;>
      simp only [Tree.inorder, List.mem_append, List.mem_cons] at h ⊢
    · rcases h with h | h | h
      · rcases ihl h with h2 | h2
        · exact Or.inl (Or.inl h2)
        · exact Or.inr h2
      · exact Or.inl (Or.inr (Or.inl h))
      · exact Or.inl (Or.inr (Or.inr h))
    · rcases h with h | h | h
      · exact Or.inl (Or.inl h)
      · exact Or.inl (Or.inr (Or.inl h))
      · rcases ihr h with h2 | h2
        · exact Or.inl (Or.inr (Or.inr h2))
        · exact Or.inr h2

/-- Volume-tree node replacement adds no element beyond the new
record. -/
theorem avReplace_subset (t : Tree Av) (k : Int) (x b : Av)
    (h : b ∈ (avReplace t k x).inorder) : b ∈ t.inorder ∨ b = x := by
  induction t with
  | nil => simp [avReplace, Tree.inorder] at h
  | node l a r ihl ihr =>
    unfold avReplace at h
    split at h
    · simp only [Tree.inorder, List.mem_append, List.mem_cons] at h ⊢
      rcases h with h | h | h
      · exact Or.inl (Or.inl h)
      · exact Or.inr h
      · exact Or.inl (Or.inr (Or.inr h))
    · split at h <;>
        simp only [Tree.inorder, List.mem_append, List.mem_cons] at h ⊢
      · rcases h with h | h | h
        · rcases ihl h with h2 | h2
          · exact Or.inl (Or.inl h2)
          · exact Or.inr h2
        · exact Or.inl (Or.inr (Or.inl h))
        · exact Or.inl (Or.inr (Or.inr h))
      · rcases h with h | h | h
        · exact Or.inl (Or.inl h)
        · exact Or.inl (Or.inr (Or.inl h))
        · rcases ihr h with h2 | h2
          · exact Or.inl (Or.inr (Or.inr h2))
          · exact Or.inr h2

/-- Used-tree insertion adds no element beyond the inserted one. -/
theorem lebInsert_subset (t : Tree Aeb) (x b : Aeb)
    (h : b ∈ (lebInsert t x).inorder) : b ∈ t.inorder ∨ b = x := by
  induction t with
  | nil =>
    simp only [lebInsert, Tree.inorder, List.mem_append, List.mem_cons,
      List.not_mem_nil, false_or, or_false] at h
    exact Or.inr h
  | node l a r ihl ihr =>
    unfold lebInsert at h
    split at h <;>
      simp only [Tree.inorder, List.mem_append, List.mem_cons] at h ⊢
    · rcases h with h | h | h
      · rcases ihl h with h2 | h2
        · exact Or.inl (Or.inl h2)
        · exact Or.inr h2
      · exact Or.inl (Or.inr (Or.inl h))
      · exact Or.inl (Or.inr (Or.inr h))
    · rcases h with h | h | h
      · exact Or.inl (Or.inl h)
      · exact Or.inl (Or.inr (Or.inl h))
      · rcases ihr h with h2 | h2
        · exact Or.inl (Or.inr (Or.inr h2))
        · exact Or.inr h2

/-- Used-tree node replacement adds no element beyond the new
record. -/
theorem lebReplace_subset (t : Tree Aeb) (k : Int) (x b : Aeb)
    (h : b ∈ (lebReplace t k x).inorder) : b ∈ t.inorder ∨ b = x := by
  induction t with
  | nil => simp [lebReplace, Tree.inorder] at h
  | node l a r ihl ihr =>
    unfold lebReplace at h
    split at h
    · simp only [Tree.inorder, List.mem_append, List.mem_cons] at h ⊢
      rcases h with h | h | h
      · exact Or.inl (Or.inl h)
      · exact Or.inr h
      · exact Or.inl (Or.inr (Or.inr h))
    · split at h <;>
        simp only [Tree.inorder, List.mem_append, List.mem_cons] at h ⊢
      · rcases h with h | h | h
        · rcases ihl h with h2 | h2
          · exact Or.inl (Or.inl h2)
          · exact Or.inr h2
        · exact Or.inl (Or.inr (Or.inl h))
        · exact Or.inl (Or.inr (Or.inr h))
      · rcases h with h | h | h
        · exact Or.inl (Or.inl h)
        · exact Or.inl (Or.inr (Or.inl h))
        · rcases ihr h with h2 | h2
          · exact Or.inl (Or.inr (Or.inr h2))
          · exact Or.inr h2

/-- Leaf insertion of an absent vol_id preserves the volume-tree
search shape. -/
theorem avInsert_wf (t : Tree Av) (x : Av) (hw : AvWf t)
    (hf : avFind t x.vol_id = none) : AvWf (avInsert t x) := by
  induction t with
  | nil => simp [avInsert, AvWf, Tree.inorder]
  | node l a r ihl ihr =>
    obtain ⟨hl, hr, hwl, hwr⟩ := hw
    unfold avFind at hf
    by_cases h1 : x.vol_id = a.vol_id
    · simp [h1] at hf
    · by_cases h2 : x.vol_id > a.vol_id
      · rw [if_neg h1, if_pos h2] at hf
        unfold avInsert
        rw [if_pos h2]
        refine ⟨?_, hr, ihl hwl hf, hwr⟩
        intro b hb
        rcases avInsert_subset l x b hb with h3 | h3
        · exact hl b h3
        · rw [h3]; exact h2
      · rw [if_neg h1, if_neg h2] at hf
        unfold avInsert
        rw [if_neg h2]
        refine ⟨hl, ?_, hwl, ihr hwr hf⟩
        intro b hb
        rcases avInsert_subset r x b hb with h3 | h3
        · exact hr b h3
        · rw [h3]; omega

/-- Replacing the node at a key with a record bearing the same vol_id
preserves the volume-tree search shape. -/
theorem avReplace_wf (t : Tree Av) (k : Int) (x : Av) (hw : AvWf t)
    (hk : x.vol_id = k) : AvWf (avReplace t k x) := by
  induction t with
  | nil => simpa [avReplace] using hw
  | node l a r ihl ihr =>
    obtain ⟨hl, hr, hwl, hwr⟩ := hw
    unfold avReplace
    by_cases h1 : k = a.vol_id
    · rw [if_pos h1]
      refine ⟨?_, ?_, hwl, hwr⟩
      · intro b hb; rw [hk, h1]; exact hl b hb
      · intro b hb; rw [hk, h1]; exact hr b hb
    · by_cases h2 : k > a.vol_id
      · rw [if_neg h1, if_pos h2]
        refine ⟨?_, hr, ihl hwl, hwr⟩
        intro b hb
        rcases avReplace_subset l k x b hb with h3 | h3
        · exact hl b h3
        · rw [h3, hk]; exact h2
      · rw [if_neg h1, if_neg h2]
        refine ⟨hl, ?_, hwl, ihr hwr⟩
        intro b hb
        rcases avReplace_subset r k x b hb with h3 | h3
        · exact hr b h3
        · rw [h3, hk]; omega

/-- Leaf insertion of an absent lnum preserves the used-tree search
shape. -/
theorem lebInsert_wf (t : Tree Aeb) (x : Aeb) (hw : LebWf t)
    (hf : lebFind t x.lnum = none) : LebWf (lebInsert t x) := by
  induction t with
  | nil => simp [lebInsert, LebWf, Tree.inorder]
  | node l a r ihl ihr =>
    obtain ⟨hl, hr, hwl, hwr⟩ := hw
    unfold lebFind at hf
    by_cases h1 : x.lnum = a.lnum
    · simp [h1] at hf
    · by_cases h2 : x.lnum < a.lnum
      · rw [if_neg h1, if_pos h2] at hf
        unfold lebInsert
        rw [if_pos h2]
        refine ⟨?_, hr, ihl hwl hf, hwr⟩
        intro b hb
        rcases lebInsert_subset l x b hb with h3 | h3
        · exact hl b h3
        · rw [h3]; exact h2
      · rw [if_neg h1, if_neg h2] at hf
        unfold lebInsert
        rw [if_neg h2]
        refine ⟨hl, ?_, hwl, ihr hwr hf⟩
        intro b hb
        rcases lebInsert_subset r x b hb with h3 | h3
        · exact hr b h3
        · rw [h3]; omega

/-- Replacing the node at an lnum with a record bearing the same
lnum preserves the used-tree search shape. -/
theorem lebReplace_wf (t : Tree Aeb) (k : Int) (x : Aeb) (hw : LebWf t)
    (hk : x.lnum = k) : LebWf (lebReplace t k x) := by
  induction t with
  | nil => simpa [lebReplace] using hw
  | node l a r ihl ihr =>
    obtain ⟨hl, hr, hwl, hwr⟩ := hw
    unfold lebReplace
    by_cases h1 : k = a.lnum
    · rw [if_pos h1]
      refine ⟨?_, ?_, hwl, hwr⟩
      · intro b hb; rw [hk, h1]; exact hl b hb
      · intro b hb; rw [hk, h1]; exact hr b hb
    · by_cases h2 : k < a.lnum
      · rw [if_neg h1, if_pos h2]
        refine ⟨?_, hr, ihl hwl, hwr⟩
        intro b hb
        rcases lebReplace_subset l k x b hb with h3 | h3
        · exact hl b h3
        · rw [h3, hk]; exact h2
      · rw [if_neg h1, if_neg h2]
        refine ⟨hl, ?_, hwl, ihr hwr⟩
        intro b hb
        rcases lebReplace_subset r k x b hb with h3 | h3
        · exact hr b h3
        · rw [h3, hk]; omega

/-- In-order traversal of a well-shaped volume tree is strictly
DESCENDING in vol_id. -/
theorem avWf_pairwise (t : Tree Av) (hw : AvWf t) :
    t.inorder.Pairwise (fun x y => y.vol_id < x.vol_id) := by
  induction t with
  | nil => simp [Tree.inorder]
  | node l a r ihl ihr =>
    obtain ⟨hl, hr, hwl, hwr⟩ := hw
    simp only [Tree.inorder]
    rw [List.pairwise_append]
    refine ⟨ihl hwl, ?_, ?_⟩
    · rw [List.pairwise_cons]
      exact ⟨fun b hb => hr b hb, ihr hwr⟩
    · intro x hx y hy
      rcases List.mem_cons.mp hy with h | h
      · rw [h]; exact hl x hx
      · exact lt_trans (hr y h) (hl x hx)

/-- In-order traversal of a well-shaped used tree is strictly
ascending in lnum. -/
theorem lebWf_pairwise (t : Tree Aeb) (hw : LebWf t) :
    t.inorder.Pairwise (fun x y => x.lnum < y.lnum) := by
  induction t with
  | nil => simp [Tree.inorder]
  | node l a r ihl ihr =>
    obtain ⟨hl, hr, hwl, hwr⟩ := hw
    simp only [Tree.inorder]
    rw [List.pairwise_append]
    refine ⟨ihl hwl, ?_, ?_⟩
    · rw [List.pairwise_cons]
      exact ⟨fun b hb => hr b hb, ihr hwr⟩
    · intro x hx y hy
      rcases List.mem_cons.mp hy with h | h
      · rw [h]; exact hl x hx
      · exact lt_trans (hl x hx) (hr y h)

/-- A found volume is in the traversal. -/
theorem avFind_mem (t : Tree Av) (k : Int) (av : Av)
    (h : avFind t k = some av) : av ∈ t.inorder := by
  induction t with
  | nil => simp [avFind] at h
  | node l a r ihl ihr =>
    unfold avFind at h
    simp only [Tree.inorder, List.mem_append, List.mem_cons]
    split at h
    · exact Or.inr (Or.inl (Option.some_injective _ h).symm)
    · split at h
      · exact Or.inl (ihl h)
      · exact Or.inr (Or.inr (ihr h))

/-- A found volume bears the key it was found under. -/
theorem avFind_key (t : Tree Av) (k : Int) (av : Av)
    (h : avFind t k = some av) : av.vol_id = k := by
  induction t with
  | nil => simp [avFind] at h
  | node l a r ihl ihr =>
    unfold avFind at h
    split at h
    · rw [← (Option.some_injective _ h)]
      omega
    · split at h
      · exact ihl h
      · exact ihr h

/-- The ordering invariant of the attach-info store: the volume tree
is a search tree (larger ids left) and every used tree hanging off it
is a search tree (smaller lnums left). -/
def VolsOrdered (t : Tree Av) : Prop :=
  AvWf t ∧ ∀ av ∈ t.inorder, LebWf av.root

/-- Node replacement with an id-preserving, well-shaped volume record
preserves the store ordering. -/
theorem volsOrdered_replace (t : Tree Av) (k : Int) (av2 : Av)
    (h : VolsOrdered t) (hk : av2.vol_id = k) (hw : LebWf av2.root) :
    VolsOrdered (avReplace t k av2) :=
  ⟨avReplace_wf t k av2 h.1 hk,
   fun b hb => (avReplace_subset t k av2 b hb).elim (h.2 b) (fun e => e ▸ hw)⟩

/-- Inserting an absent, well-shaped volume record preserves the
store ordering. -/
theorem volsOrdered_insert (t : Tree Av) (x : Av)
    (h : VolsOrdered t) (hf : avFind t x.vol_id = none) (hw : LebWf x.root) :
    VolsOrdered (avInsert t x) :=
  ⟨avInsert_wf t x h.1 hf,
   fun b hb => (avInsert_subset t x b hb).elim (h.2 b) (fun e => e ▸ hw)⟩

/-- add_to_list never touches the volume tree. -/
theorem add_to_list_volumes (ai : AttachInfo) (pnum vol_id lnum ec : Int)
    (to_head : Bool) (w : WhichList) :
    (add_to_list ai pnum vol_id lnum ec to_head w).volumes = ai.volumes := by
  cases w <;> simp [add_to_list]

/-- The max_sqnum update never touches the volume tree. -/
theorem max_sqnum_update_volumes (ai : AttachInfo) (sq : Nat) :
    (if ai.max_sqnum < sq then { ai with max_sqnum := sq } else ai).volumes =
      ai.volumes := by
  split <;> rfl

/-- add_volume preserves the store ordering. -/
theorem add_volume_ordered (ai : AttachInfo) (vol_id : Int) (vid_hdr : VidHdr)
    (h : VolsOrdered ai.volumes) :
    VolsOrdered (add_volume ai vol_id vid_hdr).1.volumes := by
  unfold add_volume
  cases hf : avFind ai.volumes vol_id with
  | some av => exact h
  | none => exact volsOrdered_insert ai.volumes _ h hf trivial

/-- ubi_add_to_av preserves the store ordering: the arbiter only ever
inserts an absent lnum at the leaf its walk reaches, or rewrites the
fields of the node already carrying that lnum. -/
theorem ubi_add_to_av_ordered (fl : Flash) (ai : AttachInfo) (pnum ec : Int)
    (vid : VidHdr) (bf : Bool) (ai2 : AttachInfo)
    (h : VolsOrdered ai.volumes)
    (hok : ubi_add_to_av fl ai pnum ec vid bf = .ok ai2) :
    VolsOrdered ai2.volumes := by
  cases hf : avFind ai.volumes vid.vol_id with
  | some av =>
    have hkey := avFind_key ai.volumes vid.vol_id av hf
    have hmem := avFind_mem ai.volumes vid.vol_id av hf
    simp only [ubi_add_to_av, add_volume_found ai vid.vol_id vid av hf] at hok
    cases hleb : lebFind av.root vid.lnum with
    | some aeb =>
      rw [hleb] at hok
      simp only [] at hok
      split at hok
      · exact absurd hok (by simp)
      · split at hok
        · exact absurd hok (by simp)
        · split at hok
          · split at hok
            · exact absurd hok (by simp)
            · simp only [Except.ok.injEq] at hok
              subst hok
              refine volsOrdered_replace _ _ _ ?_ hkey ?_
              · rw [add_to_list_volumes, max_sqnum_update_volumes]
                exact h
              · exact lebReplace_wf av.root vid.lnum _ (h.2 av hmem) rfl
          · simp only [Except.ok.injEq] at hok
            subst hok
            rw [add_to_list_volumes, max_sqnum_update_volumes]
            exact h
    | none =>
      rw [hleb] at hok
      simp only [] at hok
      split at hok
      · exact absurd hok (by simp)
      · simp only [Except.ok.injEq] at hok
        subst hok
        refine volsOrdered_replace _ _ _ ?_ ?_ ?_
        · rw [max_sqnum_update_volumes]
          exact h
        · split <;> exact hkey
        · split <;> exact lebInsert_wf av.root _ (h.2 av hmem) hleb
  | none =>
    simp only [ubi_add_to_av] at hok
    unfold add_volume at hok
    rw [hf] at hok
    simp only [lebFind] at hok
    split at hok <;> split at hok
    · exact absurd hok (by simp)
    · simp only [Except.ok.injEq] at hok
      subst hok
      refine volsOrdered_replace _ _ _ ?_ ?_ ?_
      · split <;> exact volsOrdered_insert ai.volumes _ h hf trivial
      · split <;> rfl
      · split <;> exact lebInsert_wf Tree.nil _ trivial rfl
    · exact absurd hok (by simp)
    · simp only [Except.ok.injEq] at hok
      subst hok
      refine volsOrdered_replace _ _ _ ?_ ?_ ?_
      · split <;> exact volsOrdered_insert ai.volumes _ h hf trivial
      · split <;> rfl
      · split <;> exact lebInsert_wf Tree.nil _ trivial rfl

/-- An arbitrary interleaving of volume creations (add_volume) and
arbiter admissions (ubi_add_to_av), as issued during a scan. -/
inductive ScanOp where
  | vol : Int → VidHdr → ScanOp
  | adm : Flash → Int → Int → VidHdr → Bool → ScanOp

/-- Run a sequence of store operations; a failed admission leaves the
store as it was (the C scan aborts at that point). -/
def runOps : List ScanOp → AttachInfo → AttachInfo
  | [], ai => ai
  | .vol v hd :: rest, ai => runOps rest (add_volume ai v hd).1
  | .adm fl p e hd b :: rest, ai =>
    runOps rest (match ubi_add_to_av fl ai p e hd b with
                 | .ok a => a
                 | .error _ => ai)

/-- Any operation sequence preserves the store ordering. -/
theorem runOps_ordered (ops : List ScanOp) (ai : AttachInfo)
    (h : VolsOrdered ai.volumes) : VolsOrdered (runOps ops ai).volumes := by
  induction ops generalizing ai with
  | nil => exact h
  | cons op rest ih =>
    cases op with
    | vol v hd => exact ih _ (add_volume_ordered ai v hd h)
    | adm fl p e hd b =>
      cases hok : ubi_add_to_av fl ai p e hd b with
      | ok a =>
        simp only [runOps, hok]
        exact ih _ (ubi_add_to_av_ordered fl ai p e hd b a h hok)
      | error e2 =>
        simp only [runOps, hok]
        exact ih _ h

/-- C8 counterexample: the claim says in-order traversal of the
volumes tree is ascending in vol_id.  Adding volume 1 and then volume
2 to an empty store makes the in-order traversal visit [2, 1], because
add_volume walks LARGER vol_ids to the left; the visit order is
descending, not ascending. -/
theorem add_volume_claim8_cex :
    ((add_volume (add_volume emptyAi 1 { vidZ with vol_id := 1 }).1 2
        { vidZ with vol_id := 2 }).1.volumes.inorder.map Av.vol_id = [2, 1]) ∧
    ¬ List.Sorted (· ≤ ·) [(2 : Int), 1] := by
  exact ⟨by decide, by decide⟩

/-- C8 (amended): after any sequence of add_volume and ubi_add_to_av
operations starting from the empty attach info, in-order traversal of
the volumes tree visits the VolumeInfo records in strictly DESCENDING
vol_id order — the comparisons in add_volume and ubi_find_av send
larger ids to the left — while in-order traversal of each volume's
used tree visits its PebInfo records in strictly ascending lnum
order. -/
theorem runOps_traversal_order (ops : List ScanOp) :
    (runOps ops emptyAi).volumes.inorder.Pairwise
      (fun x y => y.vol_id < x.vol_id) ∧
    ∀ av ∈ (runOps ops emptyAi).volumes.inorder,
      av.root.inorder.Pairwise (fun x y => x.lnum < y.lnum) := by
  have h := runOps_ordered ops emptyAi
    ⟨trivial, fun av hm => absurd hm (by simp [emptyAi, Tree.inorder])⟩
  exact ⟨avWf_pairwise _ h.1, fun av hm => lebWf_pairwise _ (h.2 av hm)⟩

/-- The volume record created for vol 1 from the vidZ header. -/
def avOne : Av :=
  { vol_id := 1, highest_lnum := 0, leb_count := 0, used_ebs := 0
  , data_pad := 0, compat := 0, vol_type := UBI_DYNAMIC_VOLUME
  , last_data_size := 0, root := .nil }

/-- Witness for the amended C8 theorem at a concrete two-volume run:
the traversal is [2, 1] (descending), and the used tree of volume 1 is
traversed in (vacuously) ascending lnum order. -/
theorem runOps_traversal_order_witness :
    ((runOps [ScanOp.vol 1 vidZ, ScanOp.vol 2 { vidZ with vol_id := 2 }]
        emptyAi).volumes.inorder.map Av.vol_id = [2, 1]) ∧
    (runOps [ScanOp.vol 1 vidZ, ScanOp.vol 2 { vidZ with vol_id := 2 }]
       emptyAi).volumes.inorder.Pairwise (fun x y => y.vol_id < x.vol_id) ∧
    (avOne ∈ (runOps [ScanOp.vol 1 vidZ, ScanOp.vol 2 { vidZ with vol_id := 2 }]
        emptyAi).volumes.inorder ∧
     avOne.root.inorder.Pairwise (fun x y => x.lnum < y.lnum)) := by
  refine ⟨by decide, ?_, by decide, ?_⟩
  · exact (runOps_traversal_order
      [ScanOp.vol 1 vidZ, ScanOp.vol 2 { vidZ with vol_id := 2 }]).1
  · exact (runOps_traversal_order
      [ScanOp.vol 1 vidZ, ScanOp.vol 2 { vidZ with vol_id := 2 }]).2 avOne
      (by decide)

/-! ## Frame lemmas for the scan-wide invariants (C4, C10) -/

/-- The LEB arbiter never touches the erase-counter statistics, the
mean, or the alien list and its counter. -/
theorem ubi_add_to_av_frame (fl : Flash) (ai : AttachInfo) (pnum ec : Int)
    (vid : VidHdr) (bf : Bool) (ai2 : AttachInfo)
    (hok : ubi_add_to_av fl ai pnum ec vid bf = .ok ai2) :
    ai2.mean_ec = ai.mean_ec ∧ ai2.ec_sum = ai.ec_sum ∧
    ai2.ec_count = ai.ec_count ∧ ai2.alien = ai.alien ∧
    ai2.alien_peb_count = ai.alien_peb_count := by
  cases hf : avFind ai.volumes vid.vol_id with
  | some av =>
    simp only [ubi_add_to_av, add_volume_found ai vid.vol_id vid av hf] at hok
    cases hleb : lebFind av.root vid.lnum with
    | some aeb =>
      rw [hleb] at hok
      simp only [] at hok
      split at hok
      · exact absurd hok (by simp)
      · split at hok
        · exact absurd hok (by simp)
        · split at hok
          · split at hok
            · exact absurd hok (by simp)
            · simp only [Except.ok.injEq] at hok
              subst hok
              by_cases hsq : ai.max_sqnum < vid.sqnum <;>
                simp [add_to_list, hsq]
          · simp only [Except.ok.injEq] at hok
            subst hok
            by_cases hsq : ai.max_sqnum < vid.sqnum <;>
              simp [add_to_list, hsq]
    | none =>
      rw [hleb] at hok
      simp only [] at hok
      split at hok
      · exact absurd hok (by simp)
      · simp only [Except.ok.injEq] at hok
        subst hok
        by_cases hsq : ai.max_sqnum < vid.sqnum <;> simp [hsq]
  | none =>
    simp only [ubi_add_to_av] at hok
    unfold add_volume at hok
    rw [hf] at hok
    simp only [lebFind] at hok
    split at hok <;> split at hok
    · exact absurd hok (by simp)
    · simp only [Except.ok.injEq] at hok
      subst hok
      by_cases hsq : ai.max_sqnum < vid.sqnum <;> simp [hsq]
    · exact absurd hok (by simp)
    · simp only [Except.ok.injEq] at hok
      subst hok
      by_cases hsq : ai.max_sqnum < vid.sqnum <;> simp [hsq]

/-- The EC-statistics update keeps the mean and the alien list, and
keeps the sum and count nonnegative when the contributed counter is
nonnegative. -/
theorem adjust_frame (ai : AttachInfo) (ec_err ec : Int) :
    (adjust_mean_ec ai ec_err ec).mean_ec = ai.mean_ec ∧
    (0 ≤ ai.ec_sum → (ec_err = 0 → 0 ≤ ec) → 0 ≤ (adjust_mean_ec ai ec_err ec).ec_sum) ∧
    (0 ≤ ai.ec_count → 0 ≤ (adjust_mean_ec ai ec_err ec).ec_count) ∧
    (adjust_mean_ec ai ec_err ec).alien = ai.alien ∧
    (adjust_mean_ec ai ec_err ec).alien_peb_count = ai.alien_peb_count := by
  unfold adjust_mean_ec
  by_cases he : ec_err = 0
  · rw [if_pos he]
    refine ⟨rfl, ?_, ?_, rfl, rfl⟩
    · intro h1 h2
      have h3 := h2 he
      show 0 ≤ ai.ec_sum + ec
      omega
    · intro h1
      show 0 ≤ ai.ec_count + 1
      omega
  · rw [if_neg he]
    exact ⟨rfl, fun h1 _ => h1, fun h1 => h1, rfl, rfl⟩

/-- add_to_list aimed at any list but the alien one changes neither
the statistics nor the alien state. -/
theorem add_to_list_not_alien_frame (ai : AttachInfo) (pnum vol_id lnum ec : Int)
    (to_head : Bool) (w : WhichList) (hw : w ≠ .alien) :
    (add_to_list ai pnum vol_id lnum ec to_head w).mean_ec = ai.mean_ec ∧
    (add_to_list ai pnum vol_id lnum ec to_head w).ec_sum = ai.ec_sum ∧
    (add_to_list ai pnum vol_id lnum ec to_head w).ec_count = ai.ec_count ∧
    (add_to_list ai pnum vol_id lnum ec to_head w).alien = ai.alien ∧
    (add_to_list ai pnum vol_id lnum ec to_head w).alien_peb_count = ai.alien_peb_count := by
  cases w <;> first
    | exact absurd rfl hw
    | exact ⟨rfl, rfl, rfl, rfl, rfl⟩

/-- The arbiter hand-off phase of scan_peb preserves the scan-wide
invariants. -/
theorem scan_peb_addav_frame (fl : Flash) (ubi : UbiDev) (ai : AttachInfo)
    (pnum ec ec_err : Int) (bf : Bool) (u : UbiDev) (a : AttachInfo)
    (hok : scan_peb_addav fl ubi ai pnum ec ec_err bf = .ok (u, a)) :
    a.mean_ec = ai.mean_ec ∧
    (0 ≤ ai.ec_sum → (ec_err = 0 → 0 ≤ ec) → 0 ≤ a.ec_sum) ∧
    (0 ≤ ai.ec_count → 0 ≤ a.ec_count) ∧
    a.alien = ai.alien ∧ a.alien_peb_count = ai.alien_peb_count := by
  unfold scan_peb_addav at hok
  cases h2 : ubi_add_to_av fl ai pnum ec (fl.vid_hdr pnum) bf with
  | error e =>
    rw [h2] at hok
    exact absurd hok (by simp)
  | ok ai3 =>
    rw [h2] at hok
    simp only [Except.ok.injEq, Prod.mk.injEq] at hok
    obtain ⟨rfl, rfl⟩ := hok
    have hf := ubi_add_to_av_frame fl ai pnum ec (fl.vid_hdr pnum) bf ai3 h2
    have ha := adjust_frame ai3 ec_err ec
    refine ⟨?_, ?_, ?_, ?_, ?_⟩
    · rw [ha.1, hf.1]
    · intro h1 h2
      exact ha.2.1 (by omega) h2
    · intro h1
      exact ha.2.2.1 (by omega)
    · rw [ha.2.2.2.1, hf.2.2.2.1]
    · rw [ha.2.2.2.2, hf.2.2.2.2]

/-- The vol_id dispatch of scan_peb preserves the scan-wide
invariants; the PRESERVE arm grows the alien list and its counter
together. -/
theorem scan_peb_dispatch_frame (fl : Flash) (ubi : UbiDev) (ai : AttachInfo)
    (pnum ec ec_err : Int) (bf : Bool) (u : UbiDev) (a : AttachInfo)
    (hok : scan_peb_dispatch fl ubi ai pnum ec ec_err bf = .ok (u, a)) :
    a.mean_ec = ai.mean_ec ∧
    (0 ≤ ai.ec_sum → (ec_err = 0 → 0 ≤ ec) → 0 ≤ a.ec_sum) ∧
    (0 ≤ ai.ec_count → 0 ≤ a.ec_count) ∧
    (ai.alien_peb_count = ai.alien.length → a.alien_peb_count = a.alien.length) := by
  have addav : ∀ (ub : UbiDev),
      scan_peb_addav fl ub ai pnum ec ec_err bf = .ok (u, a) →
      a.mean_ec = ai.mean_ec ∧
      (0 ≤ ai.ec_sum → (ec_err = 0 → 0 ≤ ec) → 0 ≤ a.ec_sum) ∧
      (0 ≤ ai.ec_count → 0 ≤ a.ec_count) ∧
      (ai.alien_peb_count = ai.alien.length → a.alien_peb_count = a.alien.length) := by
    intro ub h2
    have hf := scan_peb_addav_frame fl ub ai pnum ec ec_err bf u a h2
    exact ⟨hf.1, hf.2.1, hf.2.2.1,
      fun h => by rw [hf.2.2.2.2, hf.2.2.2.1]; exact h⟩
  simp only [scan_peb_dispatch] at hok
  split at hok
  · split at hok
    · -- DELETE
      simp only [Except.ok.injEq, Prod.mk.injEq] at hok
      obtain ⟨rfl, rfl⟩ := hok
      exact ⟨rfl, fun h _ => h, fun h => h, fun h => h⟩
    · split at hok
      · -- RO
        exact addav _ hok
      · split at hok
        · -- PRESERVE
          simp only [Except.ok.injEq, Prod.mk.injEq] at hok
          obtain ⟨rfl, rfl⟩ := hok
          refine ⟨rfl, fun h _ => h, fun h => h, ?_⟩
          intro h
          simp [add_to_list]
          omega
        · split at hok
          · -- REJECT
            exact absurd hok (by simp)
          · exact addav _ hok
  · exact addav _ hok

/-- The VID phase of scan_peb preserves the scan-wide invariants. -/
theorem scan_peb_vid_frame (cfg : Bool) (fl : Flash) (ubi : UbiDev)
    (ai : AttachInfo) (pnum ec ec_err : Int) (bf : Bool) (u : UbiDev)
    (a : AttachInfo)
    (hok : scan_peb_vid cfg fl ubi ai pnum ec ec_err bf = .ok (u, a)) :
    a.mean_ec = ai.mean_ec ∧
    (0 ≤ ai.ec_sum → (ec_err = 0 → 0 ≤ ec) → 0 ≤ a.ec_sum) ∧
    (0 ≤ ai.ec_count → 0 ≤ a.ec_count) ∧
    (ai.alien_peb_count = ai.alien.length → a.alien_peb_count = a.alien.length) := by
  have tailAdd : ∀ (aiB : AttachInfo) (th : Bool) (w : WhichList), w ≠ .alien →
      aiB.mean_ec = ai.mean_ec → aiB.ec_sum = ai.ec_sum → aiB.ec_count = ai.ec_count →
      aiB.alien = ai.alien → aiB.alien_peb_count = ai.alien_peb_count →
      a = adjust_mean_ec (add_to_list aiB pnum UBI_UNKNOWN UBI_UNKNOWN ec th w) ec_err ec →
      a.mean_ec = ai.mean_ec ∧
      (0 ≤ ai.ec_sum → (ec_err = 0 → 0 ≤ ec) → 0 ≤ a.ec_sum) ∧
      (0 ≤ ai.ec_count → 0 ≤ a.ec_count) ∧
      (ai.alien_peb_count = ai.alien.length → a.alien_peb_count = a.alien.length) := by
    intro aiB th w hw e1 e2 e3 e4 e5 ha
    subst ha
    have hl := add_to_list_not_alien_frame aiB pnum UBI_UNKNOWN UBI_UNKNOWN ec th w hw
    have hadj := adjust_frame (add_to_list aiB pnum UBI_UNKNOWN UBI_UNKNOWN ec th w) ec_err ec
    refine ⟨?_, ?_, ?_, ?_⟩
    · rw [hadj.1, hl.1, e1]
    · intro h1 h2
      exact hadj.2.1 (by omega) h2
    · intro h1
      exact hadj.2.2.1 (by omega)
    · intro h1
      rw [hadj.2.2.2.2, hadj.2.2.2.1, hl.2.2.2.2, hl.2.2.2.1, e4, e5]
      exact h1
  simp only [scan_peb_vid] at hok
  split at hok
  · exact absurd hok (by simp)
  · split at hok
    · exact scan_peb_dispatch_frame fl ubi ai pnum ec ec_err _ u a hok
    · split at hok
      · -- corrupt VID header
        revert hok
        generalize hai1 : (if fl.vid_res pnum = UBI_IO_BAD_HDR_EBADMSG ∧
            ec_err = UBI_IO_BAD_HDR_EBADMSG
          then { ai with maybe_bad_peb_count := ai.maybe_bad_peb_count + 1 }
          else ai) = ai1
        generalize (if ec_err ≠ 0 then (0 : Int)
          else check_corruption (fl.data_res pnum) (fl.data pnum)) = cres
        intro hok
        have hfr : ai1.mean_ec = ai.mean_ec ∧ ai1.ec_sum = ai.ec_sum ∧
            ai1.ec_count = ai.ec_count ∧ ai1.alien = ai.alien ∧
            ai1.alien_peb_count = ai.alien_peb_count := by
          rw [← hai1]
          split <;> exact ⟨rfl, rfl, rfl, rfl, rfl⟩
        split at hok
        · exact absurd hok (by simp)
        · split at hok
          · simp only [Except.ok.injEq, Prod.mk.injEq] at hok
            obtain ⟨rfl, rfl⟩ := hok
            exact tailAdd ai1 true (if cfg then .waiting else .erase)
              (by cases cfg <;> simp) hfr.1 hfr.2.1 hfr.2.2.1 hfr.2.2.2.1
              hfr.2.2.2.2 rfl
          · simp only [Except.ok.injEq, Prod.mk.injEq] at hok
            obtain ⟨rfl, rfl⟩ := hok
            have hadj := adjust_frame (add_corrupted ai1 pnum ec) ec_err ec
            refine ⟨?_, ?_, ?_, ?_⟩
            · rw [hadj.1]
              exact hfr.1
            · intro h1 h2
              refine hadj.2.1 ?_ h2
              have := hfr.2.1
              show 0 ≤ ai1.ec_sum
              omega
            · intro h1
              refine hadj.2.2.1 ?_
              have := hfr.2.2.1
              show 0 ≤ ai1.ec_count
              omega
            · intro h1
              rw [hadj.2.2.2.2, hadj.2.2.2.1]
              show ai1.alien_peb_count = (ai1.alien.length : Int)
              rw [hfr.2.2.2.1, hfr.2.2.2.2]
              exact h1
      · split at hok
        · -- VID read FF with bitflips
          simp only [Except.ok.injEq, Prod.mk.injEq] at hok
          obtain ⟨rfl, rfl⟩ := hok
          exact tailAdd ai true .erase (by simp) rfl rfl rfl rfl rfl rfl
        · split at hok
          · split at hok
            · -- VID FF over a tainted PEB
              simp only [Except.ok.injEq, Prod.mk.injEq] at hok
              obtain ⟨rfl, rfl⟩ := hok
              exact tailAdd ai true .erase (by simp) rfl rfl rfl rfl rfl rfl
            · -- VID FF over a clean PEB: free list
              simp only [Except.ok.injEq, Prod.mk.injEq] at hok
              obtain ⟨rfl, rfl⟩ := hok
              exact tailAdd ai false .free (by simp) rfl rfl rfl rfl rfl rfl
          · exact absurd hok (by simp)

set_option maxHeartbeats 1600000 in
/-- scan_peb preserves the scan-wide invariants: it never changes the
mean, keeps the statistics nonnegative whenever the flash reports
nonnegative erase counters, and moves alien_peb_count in step with the
alien list. -/
theorem scan_peb_frame (cfg : Bool) (fl : Flash) (ubi : UbiDev)
    (ai : AttachInfo) (pnum : Int) (u : UbiDev) (a : AttachInfo)
    (hok : scan_peb cfg fl ubi ai pnum = .ok (u, a)) :
    a.mean_ec = ai.mean_ec ∧
    (0 ≤ ai.ec_sum → (∀ q, 0 ≤ (fl.ec_hdr q).ec) → 0 ≤ a.ec_sum) ∧
    (0 ≤ ai.ec_count → 0 ≤ a.ec_count) ∧
    (ai.alien_peb_count = ai.alien.length → a.alien_peb_count = a.alien.length) := by
  simp only [scan_peb] at hok
  split at hok
  · exact absurd hok (by simp)
  · split at hok
    · -- bad PEB
      simp only [Except.ok.injEq, Prod.mk.injEq] at hok
      obtain ⟨rfl, rfl⟩ := hok
      exact ⟨rfl, fun h _ => h, fun h => h, fun h => h⟩
    · split at hok
      · exact absurd hok (by simp)
      · split at hok
        · -- EC read FF
          simp only [Except.ok.injEq, Prod.mk.injEq] at hok
          obtain ⟨rfl, rfl⟩ := hok
          exact ⟨rfl, fun h _ => h, fun h => h, fun h => h⟩
        · split at hok
          · -- EC read FF_BITFLIPS
            simp only [Except.ok.injEq, Prod.mk.injEq] at hok
            obtain ⟨rfl, rfl⟩ := hok
            exact ⟨rfl, fun h _ => h, fun h => h, fun h => h⟩
          · split at hok
            · -- EC intact
              split at hok
              · exact absurd hok (by simp)
              · split at hok
                · exact absurd hok (by simp)
                · split at hok <;> split at hok
                  · exact absurd hok (by simp)
                  · have hv := scan_peb_vid_frame cfg fl _ ai pnum
                      (fl.ec_hdr pnum).ec 0 _ u a hok
                    exact ⟨hv.1, fun h1 hnn => hv.2.1 h1 (fun _ => hnn pnum),
                      hv.2.2.1, hv.2.2.2⟩
                  · exact absurd hok (by simp)
                  · have hv := scan_peb_vid_frame cfg fl _ ai pnum
                      (fl.ec_hdr pnum).ec 0 _ u a hok
                    exact ⟨hv.1, fun h1 hnn => hv.2.1 h1 (fun _ => hnn pnum),
                      hv.2.2.1, hv.2.2.2⟩
            · split at hok
              · -- EC header corrupt: VID phase with unknown EC
                rename_i hcase
                have hv := scan_peb_vid_frame cfg fl ubi ai pnum UBI_UNKNOWN
                  (fl.ec_res pnum) true u a hok
                refine ⟨hv.1, ?_, hv.2.2.1, hv.2.2.2⟩
                intro h1 _
                refine hv.2.1 h1 ?_
                intro he
                rcases hcase with h2 | h2 <;> rw [h2] at he <;>
                  simp [UBI_IO_BAD_HDR, UBI_IO_BAD_HDR_EBADMSG] at he
              · exact absurd hok (by simp)

/-- The classification loop preserves the scan-wide invariants. -/
theorem scan_loop_frame (cfg : Bool) (fl : Flash) (ps : List Nat)
    (ubi : UbiDev) (ai : AttachInfo) (u : UbiDev) (a : AttachInfo)
    (hok : scan_loop cfg fl ps ubi ai = .ok (u, a)) :
    a.mean_ec = ai.mean_ec ∧
    (0 ≤ ai.ec_sum → (∀ q, 0 ≤ (fl.ec_hdr q).ec) → 0 ≤ a.ec_sum) ∧
    (0 ≤ ai.ec_count → 0 ≤ a.ec_count) ∧
    (ai.alien_peb_count = ai.alien.length → a.alien_peb_count = a.alien.length) := by
  induction ps generalizing ubi ai with
  | nil =>
    simp only [scan_loop, Except.ok.injEq, Prod.mk.injEq] at hok
    obtain ⟨rfl, rfl⟩ := hok
    exact ⟨rfl, fun h _ => h, fun h => h, fun h => h⟩
  | cons p ps ih =>
    simp only [scan_loop] at hok
    cases h1 : scan_peb cfg fl ubi ai (p : Int) with
    | error e =>
      rw [h1] at hok
      exact absurd hok (by simp)
    | ok ua =>
      rw [h1] at hok
      simp only [] at hok
      obtain ⟨m1, s1, c1, al1⟩ :=
        scan_peb_frame cfg fl ubi ai p ua.1 ua.2 (by rw [h1])
      obtain ⟨m2, s2, c2, al2⟩ := ih ua.1 ua.2 hok
      exact ⟨m2.trans m1, fun h hn => s2 (s1 h hn) hn, fun h => c2 (c1 h),
        fun h => al2 (al1 h)⟩

/-- late_analysis only flips is_empty and the image sequence; the
statistics and the alien state pass through unchanged. -/
theorem late_analysis_frame (rand_seq : Int) (ubi : UbiDev) (ai : AttachInfo)
    (u : UbiDev) (a : AttachInfo)
    (hok : late_analysis rand_seq ubi ai = .ok (u, a)) :
    a.mean_ec = ai.mean_ec ∧ a.ec_sum = ai.ec_sum ∧ a.ec_count = ai.ec_count ∧
    a.alien = ai.alien ∧ a.alien_peb_count = ai.alien_peb_count := by
  simp only [late_analysis] at hok
  split at hok <;> split at hok
  · exact absurd hok (by simp)
  · split at hok
    · split at hok
      · simp only [Except.ok.injEq, Prod.mk.injEq] at hok
        obtain ⟨rfl, rfl⟩ := hok
        exact ⟨rfl, rfl, rfl, rfl, rfl⟩
      · exact absurd hok (by simp)
    · simp only [Except.ok.injEq, Prod.mk.injEq] at hok
      obtain ⟨rfl, rfl⟩ := hok
      exact ⟨rfl, rfl, rfl, rfl, rfl⟩
  · exact absurd hok (by simp)
  · split at hok
    · split at hok
      · simp only [Except.ok.injEq, Prod.mk.injEq] at hok
        obtain ⟨rfl, rfl⟩ := hok
        exact ⟨rfl, rfl, rfl, rfl, rfl⟩
      · exact absurd hok (by simp)
    · simp only [Except.ok.injEq, Prod.mk.injEq] at hok
      obtain ⟨rfl, rfl⟩ := hok
      exact ⟨rfl, rfl, rfl, rfl, rfl⟩

/-- A record that went through the fill-in pass never carries the
UNKNOWN sentinel once the mean is nonnegative. -/
theorem fillAeb_no_unknown (m : Int) (hm : 0 ≤ m) (x : Aeb) :
    (fillAeb m x).ec ≠ UBI_UNKNOWN := by
  unfold fillAeb
  split
  · show m ≠ UBI_UNKNOWN
    simp only [UBI_UNKNOWN]
    omega
  · rename_i h
    exact h

/-- No record of a filled used tree carries the UNKNOWN sentinel. -/
theorem fillTree_no_unknown (m : Int) (hm : 0 ≤ m) (t : Tree Aeb) :
    ∀ x ∈ (fillTree m t).inorder, x.ec ≠ UBI_UNKNOWN := by
  induction t with
  | nil => simp [fillTree, Tree.inorder]
  | node l y r ihl ihr =>
    intro x hx
    simp only [fillTree, Tree.inorder, List.mem_append, List.mem_cons] at hx
    rcases hx with hx | hx | hx
    · exact ihl x hx
    · rw [hx]
      exact fillAeb_no_unknown m hm y
    · exact ihr x hx

/-- No used-tree record of a filled volume tree carries the UNKNOWN
sentinel. -/
theorem fillVols_no_unknown (m : Int) (hm : 0 ≤ m) (t : Tree Av) :
    ∀ av ∈ (fillVols m t).inorder, ∀ x ∈ av.root.inorder, x.ec ≠ UBI_UNKNOWN := by
  induction t with
  | nil => simp [fillVols, Tree.inorder]
  | node l y r ihl ihr =>
    intro av hav
    simp only [fillVols, Tree.inorder, List.mem_append, List.mem_cons] at hav
    rcases hav with hav | hav | hav
    · exact ihl av hav
    · rw [hav]
      exact fillTree_no_unknown m hm y.root
    · exact ihr av hav

/-! ## C10: alien_peb_count counts the alien list -/

/-- C10: at every successful scan_all return that started from the
freshly allocated (empty) attach info, alien_peb_count equals the
number of PebInfo records on the alien list: add_to_list increments
the counter exactly when it appends to the alien list, and no other
scan operation touches either the counter or the list. -/
theorem scan_all_alien_count (cfg : Bool) (fl : Flash) (rand_seq : Int)
    (ubi : UbiDev) (start : Nat) (res : UbiDev × AttachInfo)
    (hok : scan_all cfg fl rand_seq ubi emptyAi start = .ok res) :
    res.2.alien_peb_count = res.2.alien.length := by
  simp only [scan_all] at hok
  cases h1 : scan_loop cfg fl (List.range' start (ubi.peb_count - start)) ubi emptyAi with
  | error e =>
    rw [h1] at hok
    exact absurd hok (by simp)
  | ok ua =>
    rw [h1] at hok
    simp only [] at hok
    obtain ⟨-, -, -, al1⟩ :=
      scan_loop_frame cfg fl _ ubi emptyAi ua.1 ua.2 (by rw [h1])
    have hal : ua.2.alien_peb_count = ua.2.alien.length := al1 (by simp [emptyAi])
    have hm2 : (if ua.2.ec_count ≠ 0
        then { ua.2 with mean_ec := ua.2.ec_sum.tdiv ua.2.ec_count }
        else ua.2).alien_peb_count =
        ((if ua.2.ec_count ≠ 0
          then { ua.2 with mean_ec := ua.2.ec_sum.tdiv ua.2.ec_count }
          else ua.2).alien.length : Int) := by
      split <;> exact hal
    cases h2 : late_analysis rand_seq ua.1
        (if ua.2.ec_count ≠ 0
         then { ua.2 with mean_ec := ua.2.ec_sum.tdiv ua.2.ec_count }
         else ua.2) with
    | error e =>
      rw [h2] at hok
      exact absurd hok (by simp)
    | ok ua2 =>
      rw [h2] at hok
      simp only [] at hok
      rw [if_neg (by simp [self_check_ai])] at hok
      obtain ⟨-, -, -, lal, lcnt⟩ :=
        late_analysis_frame rand_seq ua.1 _ ua2.1 ua2.2 (by rw [h2])
      have : res = (ua2.1, fill_unknown_ec ua2.2) := by
        simpa using hok.symm
      rw [this]
      show (fill_unknown_ec ua2.2).alien_peb_count =
        ((fill_unknown_ec ua2.2).alien.length : Int)
      show ua2.2.alien_peb_count = (ua2.2.alien.length : Int)
      rw [lcnt, lal]
      exact hm2

/-- Flash whose every EC-header read answers FF: fully erased
media. -/
def flFF : Flash := { flW with ec_res := fun _ => UBI_IO_FF }

/-- The device state after scanning the one-PEB all-FF device: the
blank-media analysis assigned the random image_seq 7. -/
def uFF : UbiDev := { peb_count := 1, image_seq := 7, ro_mode := false }

/-- The attach info after scanning the one-PEB all-FF device: one
empty PEB on the erase list (its unknown EC filled with the mean 0)
and the is_empty flag set. -/
def aiFF : AttachInfo :=
  { emptyAi with
    erase := [{ pnum := 0, vol_id := UBI_UNKNOWN, lnum := UBI_UNKNOWN, ec := 0
              , sqnum := 0, scrub := false, copy_flag := false }]
  , empty_peb_count := 1, is_empty := true }

/-- Witness for the C10 theorem on the one-PEB all-FF device. -/
theorem scan_all_alien_count_witness :
    scan_all false flFF 7 ubiOne emptyAi 0 = .ok (uFF, aiFF) ∧
    (uFF, aiFF).2.alien_peb_count = (uFF, aiFF).2.alien.length := by
  refine ⟨by decide, ?_⟩
  exact scan_all_alien_count false flFF 7 ubiOne 0 (uFF, aiFF) (by decide)

/-! ## C4: mean-EC fill-in coverage -/

/-- Flash for the C4 counterexample: PEB 0 carries a clean EC header
(erase counter 50) and an all-FF VID area (a free PEB), PEB 1 has a
corrupt EC header but a valid VID header naming an internal PRESERVE
volume, so it lands on the alien list with unknown EC. -/
def flC4 : Flash :=
  { is_bad := fun _ => 0
  , ec_res := fun p => if p = 0 then 0 else UBI_IO_BAD_HDR
  , ec_hdr := fun _ => { version := 1, ec := 50, image_seq := 0 }
  , vid_res := fun p => if p = 0 then UBI_IO_FF else 0
  , vid_hdr := fun _ => { vol_type := 1, copy_flag := false
                        , compat := UBI_COMPAT_PRESERVE, vol_id := 0x7ffff000
                        , lnum := 0, data_size := 0, used_ebs := 0, data_pad := 0
                        , data_crc := 0, sqnum := 4 }
  , data_res := fun _ => 0, data := fun _ => [] }

/-- A two-PEB device descriptor. -/
def ubiTwo : UbiDev := { peb_count := 2, image_seq := 0, ro_mode := false }

/-- C4 counterexample: the claim says every PebInfo with unknown EC on
ANY of the lists, the alien list included, is assigned mean_ec before
self-check.  On this successful two-PEB scan mean_ec is 50, yet the
alien-list record still carries the UNKNOWN sentinel after scan_all
returns: the fill-in loops cover only the used trees and the free,
corr and erase lists. -/
theorem scan_all_claim4_cex :
    exceptOk (scan_all false flC4 9 ubiTwo emptyAi 0) = true ∧
    (exceptAi (scan_all false flC4 9 ubiTwo emptyAi 0)).mean_ec = 50 ∧
    (exceptAi (scan_all false flC4 9 ubiTwo emptyAi 0)).alien.map Aeb.ec =
      [UBI_UNKNOWN] ∧
    UBI_UNKNOWN ≠ (exceptAi (scan_all false flC4 9 ubiTwo emptyAi 0)).mean_ec := by
  exact ⟨by decide, by decide, by decide, by decide⟩

/-- C4 (amended): after a successful scan_all from the freshly
allocated attach info, mean_ec equals ec_sum / ec_count (0 when
ec_count is 0), and — provided the flash reports nonnegative erase
counters — every PebInfo in every used tree and on the free, corr and
erase lists has a known (non-UNKNOWN) erase counter: the fill-in pass
assigned mean_ec to each unknown one.  Records on the alien (and
waiting) lists are NOT updated by the fill-in pass. -/
theorem scan_all_fill_unknown (cfg : Bool) (fl : Flash) (rand_seq : Int)
    (ubi : UbiDev) (start : Nat) (res : UbiDev × AttachInfo)
    (hok : scan_all cfg fl rand_seq ubi emptyAi start = .ok res)
    (hnn : ∀ q, 0 ≤ (fl.ec_hdr q).ec) :
    res.2.mean_ec = (if res.2.ec_count = 0 then 0
                     else res.2.ec_sum.tdiv res.2.ec_count) ∧
    (∀ av ∈ res.2.volumes.inorder, ∀ aeb ∈ av.root.inorder,
       aeb.ec ≠ UBI_UNKNOWN) ∧
    (∀ aeb ∈ res.2.free, aeb.ec ≠ UBI_UNKNOWN) ∧
    (∀ aeb ∈ res.2.corr, aeb.ec ≠ UBI_UNKNOWN) ∧
    (∀ aeb ∈ res.2.erase, aeb.ec ≠ UBI_UNKNOWN) := by
  simp only [scan_all] at hok
  cases h1 : scan_loop cfg fl (List.range' start (ubi.peb_count - start)) ubi emptyAi with
  | error e =>
    rw [h1] at hok
    exact absurd hok (by simp)
  | ok ua =>
    rw [h1] at hok
    simp only [] at hok
    obtain ⟨m1, s1, c1, -⟩ :=
      scan_loop_frame cfg fl _ ubi emptyAi ua.1 ua.2 (by rw [h1])
    have hsum : 0 ≤ ua.2.ec_sum := s1 (by simp [emptyAi]) hnn
    have hcnt : 0 ≤ ua.2.ec_count := c1 (by simp [emptyAi])
    have hmean0 : ua.2.mean_ec = 0 := by simpa [emptyAi] using m1
    have hmean2 : (if ua.2.ec_count ≠ 0
        then { ua.2 with mean_ec := ua.2.ec_sum.tdiv ua.2.ec_count }
        else ua.2).mean_ec =
        (if ua.2.ec_count = 0 then 0 else ua.2.ec_sum.tdiv ua.2.ec_count) := by
      by_cases hc : ua.2.ec_count = 0
      · rw [if_neg (by simpa using hc), if_pos hc]
        exact hmean0
      · rw [if_pos hc, if_neg hc]
    have hstats2 : (if ua.2.ec_count ≠ 0
        then { ua.2 with mean_ec := ua.2.ec_sum.tdiv ua.2.ec_count }
        else ua.2).ec_sum = ua.2.ec_sum ∧
        (if ua.2.ec_count ≠ 0
         then { ua.2 with mean_ec := ua.2.ec_sum.tdiv ua.2.ec_count }
         else ua.2).ec_count = ua.2.ec_count := by
      split <;> exact ⟨rfl, rfl⟩
    have hm2nn : 0 ≤ (if ua.2.ec_count ≠ 0
        then { ua.2 with mean_ec := ua.2.ec_sum.tdiv ua.2.ec_count }
        else ua.2).mean_ec := by
      rw [hmean2]
      split
      · exact le_refl 0
      · exact Int.tdiv_nonneg hsum (by omega)
    cases h2 : late_analysis rand_seq ua.1
        (if ua.2.ec_count ≠ 0
         then { ua.2 with mean_ec := ua.2.ec_sum.tdiv ua.2.ec_count }
         else ua.2) with
    | error e =>
      rw [h2] at hok
      exact absurd hok (by simp)
    | ok ua2 =>
      rw [h2] at hok
      simp only [] at hok
      rw [if_neg (by simp [self_check_ai])] at hok
      obtain ⟨lm, ls, lc, -, -⟩ :=
        late_analysis_frame rand_seq ua.1 _ ua2.1 ua2.2 (by rw [h2])
      have hres : res = (ua2.1, fill_unknown_ec ua2.2) := by
        simpa using hok.symm
      rw [hres]
      have hm : 0 ≤ ua2.2.mean_ec := by
        rw [lm]
        exact hm2nn
      refine ⟨?_, ?_, ?_, ?_, ?_⟩
      · show ua2.2.mean_ec =
          (if ua2.2.ec_count = 0 then 0 else ua2.2.ec_sum.tdiv ua2.2.ec_count)
        rw [lm, ls, lc, hstats2.1, hstats2.2, hmean2]
      · intro av hav aeb haeb
        exact fillVols_no_unknown ua2.2.mean_ec hm ua2.2.volumes av hav aeb haeb
      · intro aeb hmm
        obtain ⟨y, -, rfl⟩ := List.mem_map.mp hmm
        exact fillAeb_no_unknown ua2.2.mean_ec hm y
      · intro aeb hmm
        obtain ⟨y, -, rfl⟩ := List.mem_map.mp hmm
        exact fillAeb_no_unknown ua2.2.mean_ec hm y
      · intro aeb hmm
        obtain ⟨y, -, rfl⟩ := List.mem_map.mp hmm
        exact fillAeb_no_unknown ua2.2.mean_ec hm y

/-- The attach info after the two-PEB flC4 scan: the free PEB carries
erase counter 50, the alien PEB keeps the UNKNOWN sentinel, and the
mean is 50. -/
def aiC4 : AttachInfo :=
  { emptyAi with
    free := [{ pnum := 0, vol_id := UBI_UNKNOWN, lnum := UBI_UNKNOWN, ec := 50
             , sqnum := 0, scrub := false, copy_flag := false }]
  , alien := [{ pnum := 1, vol_id := 0x7ffff000, lnum := 0, ec := UBI_UNKNOWN
              , sqnum := 0, scrub := false, copy_flag := false }]
  , alien_peb_count := 1, ec_sum := 50, ec_count := 1, max_ec := 50
  , mean_ec := 50 }

/-- Witness for the amended C4 theorem on the flC4 device. -/
theorem scan_all_fill_unknown_witness :
    scan_all false flC4 9 ubiTwo emptyAi 0 = .ok (ubiTwo, aiC4) ∧
    (∀ q, 0 ≤ (flC4.ec_hdr q).ec) ∧
    (aiC4.mean_ec = (if aiC4.ec_count = 0 then 0
                     else aiC4.ec_sum.tdiv aiC4.ec_count) ∧
     (∀ av ∈ aiC4.volumes.inorder, ∀ aeb ∈ av.root.inorder,
        aeb.ec ≠ UBI_UNKNOWN) ∧
     (∀ aeb ∈ aiC4.free, aeb.ec ≠ UBI_UNKNOWN) ∧
     (∀ aeb ∈ aiC4.corr, aeb.ec ≠ UBI_UNKNOWN) ∧
     (∀ aeb ∈ aiC4.erase, aeb.ec ≠ UBI_UNKNOWN)) := by
  refine ⟨by decide, fun q => show (0 : Int) ≤ 50 by decide, ?_⟩
  exact scan_all_fill_unknown false flC4 9 ubiTwo 0 (ubiTwo, aiC4)
    (by decide) (fun q => show (0 : Int) ≤ 50 by decide)

end UbiAttach
